import Mathlib

/-!
Shallow embedding of `arm_nn_vec_mat_mult_t_s8`
(`src/Source/NNSupportFunctions/arm_nn_vec_mat_mult_t_s8.c`), the s8
vector-by-transposed-matrix multiplication kernel of CMSIS-NN, together with
proofs about its three compile-time strategies (MVE wide-vector, DSP
lane-packed, portable scalar).

Buffers are modelled as functions `Nat → Int`; signed overflow of the 32-bit
accumulators is undefined behaviour in the C source, so the defined executions
are modelled with exact integer arithmetic.  Each strategy is embedded as a
function returning the ordered list of `(byte offset into dst, stored value)`
writes, the number of bias elements consumed through the bias pointer, and the
returned status.
-/

set_option maxRecDepth 10000

/-- Status codes of `arm_cmsis_nn_status` (from `arm_nn_types.h`); this kernel
only ever returns `ARM_CMSIS_NN_SUCCESS` (line 405). -/
inductive arm_cmsis_nn_status : Type where
  | ARM_CMSIS_NN_SUCCESS : arm_cmsis_nn_status
  | ARM_CMSIS_NN_ARG_ERROR : arm_cmsis_nn_status
  | ARM_CMSIS_NN_NO_IMPL_ERROR : arm_cmsis_nn_status
  deriving DecidableEq, Repr

/-- Wrap-around narrowing of an integer to a signed 8-bit value: the effect of
storing through an `int8_t` pointer (`*dst = (int8_t)res;`) or of a vector
byte store of a 32-bit lane. -/
def toS8 (x : Int) : Int := (x + 128) % 256 - 128

/-- Wrap-around narrowing of an integer to a signed 16-bit value: the effect of
the `int16_t` cast on `lhs_offset` (line 191) and of the 16-bit lanes produced
by the DSP `SXTAB16` instructions. -/
def toS16 (x : Int) : Int := (x + 32768) % 65536 - 32768

/-- Modelled from the spec: the shared saturating requantization primitive
(`arm_nn_requantize` declared in `arm_nnsupportfunctions.h` and its vector
counterpart `arm_requantize_mve`, neither of which is among the sources).  Per
spec section 4.5 the 32-bit accumulator is multiplied by `dst_multiplier`, a
Q31 fixed-point scale numerator, then rounding-right-shifted by `dst_shift`
(left-shifted when the combined exponent is negative); the spec pins one
rounding rule shared by all strategies, taken here as round-half-up. -/
def arm_nn_requantize (val multiplier shift : Int) : Int :=
  if 0 ≤ 31 + shift then
    Int.fdiv (val * multiplier + 2 ^ (31 + shift).toNat / 2) (2 ^ (31 + shift).toNat)
  else
    val * multiplier * 2 ^ (0 - (31 + shift)).toNat

/-- Scalar arguments of `arm_nn_vec_mat_mult_t_s8` other than the four
pointers.  `rhs_cols`, `rhs_rows` and `address_offset` are non-negative by the
documented preconditions and are carried as `Nat`. -/
structure VecMatParams : Type where
  lhs_offset : Int
  dst_offset : Int
  dst_multiplier : Int
  dst_shift : Int
  rhs_cols : Nat
  rhs_rows : Nat
  activation_min : Int
  activation_max : Int
  address_offset : Nat

/-- Common tail of all three strategies: requantize one accumulator, add
`dst_offset`, clamp with `MAX`/`MIN` against the activation bounds and narrow
to 8 bits for the store (e.g. lines 341-360). -/
def requantClamp (p : VecMatParams) (res : Int) : Int :=
  toS8 (min (max (arm_nn_requantize res p.dst_multiplier p.dst_shift + p.dst_offset)
    p.activation_min) p.activation_max)

/-- Value used to initialize an accumulator from the bias cursor: the source
reads `*bias` when `bias` is non-null and otherwise leaves the accumulator at
zero (`if (bias) { acc = *bias++; }`). -/
def biasAt (bias : Option (Nat → Int)) (k : Nat) : Int :=
  match bias with
  | some b => b k
  | none => 0

/-- Advance of the bias cursor: the source only increments the bias pointer
when it is non-null. -/
def biasAdv (bias : Option (Nat → Int)) (k n : Nat) : Nat :=
  match bias with
  | some _ => k + n
  | none => k

/-- Sum of `(lhs c + off) * w c` over columns `c < n` in source order: the
per-row accumulation formula of the scalar strategy. -/
def dotOff (lhs w : Nat → Int) (off : Int) : Nat → Int
  | 0 => 0
  | Nat.succ n => dotOff lhs w off n + (lhs n + off) * w n

/-- Sum of `w (base + t)` over `t < n`. -/
def sumFrom (w : Nat → Int) (base : Nat) : Nat → Int
  | 0 => 0
  | Nat.succ t => sumFrom w base t + w (base + t)

/-- Sum of `a (base + t) * b (base + t)` over `t < n`. -/
def dotFrom (a b : Nat → Int) (base : Nat) : Nat → Int
  | 0 => 0
  | Nat.succ t => dotFrom a b base t + a (base + t) * b (base + t)

/-- Sum of `(lhs (base + t) + off) * w (base + t)` over `t < n`: offset dot
product over a column range starting at `base`. -/
def dotOffFrom (lhs w : Nat → Int) (off : Int) (base : Nat) : Nat → Int
  | 0 => 0
  | Nat.succ t => dotOffFrom lhs w off base t + (lhs (base + t) + off) * w (base + t)

/-- Column loop of the scalar strategy's 3-row groups (lines 324-339): for each
column, read one lhs element, add `lhs_offset`, multiply into the three row
accumulators. -/
def scalarCols3 (lhs r0 r1 r2 : Nat → Int) (off : Int) :
    Nat → Int × Int × Int → Int × Int × Int
  | 0, res => res
  | Nat.succ n, res =>
      let r := scalarCols3 lhs r0 r1 r2 off n res
      let lhs_value := lhs n + off
      (r.1 + lhs_value * r0 n, r.2.1 + lhs_value * r1 n, r.2.2 + lhs_value * r2 n)

/-- Column loop of the scalar strategy's single-row remainder (lines 379-388). -/
def scalarCols1 (lhs r0 : Nat → Int) (off : Int) : Nat → Int → Int
  | 0, res => res
  | Nat.succ n, res => scalarCols1 lhs r0 off n res + (lhs n + off) * r0 n

/-- Row-group loop of the scalar strategy (lines 306-364): `g` remaining
groups of three rows, threading the rhs base index, the bias cursor and the
dst base index exactly as the source advances its pointers.  Returns the
ordered write trace and the final bias cursor. -/
def scalarGroups (lhs rhs : Nat → Int) (bias : Option (Nat → Int)) (p : VecMatParams) :
    Nat → Nat → Nat → Nat → List (Nat × Int) × Nat
  | 0, _, biasIdx, _ => ([], biasIdx)
  | Nat.succ g, rhsBase, biasIdx, dstBase =>
      let init := (biasAt bias biasIdx, biasAt bias (biasIdx + 1), biasAt bias (biasIdx + 2))
      let res := scalarCols3 lhs (fun c => rhs (rhsBase + c))
          (fun c => rhs (rhsBase + p.rhs_cols + c))
          (fun c => rhs (rhsBase + 2 * p.rhs_cols + c)) p.lhs_offset p.rhs_cols init
      let ws := [(dstBase, requantClamp p res.1),
                 (dstBase + p.address_offset, requantClamp p res.2.1),
                 (dstBase + 2 * p.address_offset, requantClamp p res.2.2)]
      let next := scalarGroups lhs rhs bias p g (rhsBase + 3 * p.rhs_cols)
          (biasAdv bias biasIdx 3) (dstBase + 3 * p.address_offset)
      (ws ++ next.1, next.2)

/-- Remainder loop of the scalar strategy (lines 366-403): `t` remaining
single rows. -/
def scalarRemainder (lhs rhs : Nat → Int) (bias : Option (Nat → Int)) (p : VecMatParams) :
    Nat → Nat → Nat → Nat → List (Nat × Int) × Nat
  | 0, _, biasIdx, _ => ([], biasIdx)
  | Nat.succ t, rhsBase, biasIdx, dstBase =>
      let res := scalarCols1 lhs (fun c => rhs (rhsBase + c)) p.lhs_offset p.rhs_cols
          (biasAt bias biasIdx)
      let next := scalarRemainder lhs rhs bias p t (rhsBase + p.rhs_cols)
          (biasAdv bias biasIdx 1) (dstBase + p.address_offset)
      ((dstBase, requantClamp p res) :: next.1, next.2)

/-- Shallow embedding of the portable scalar strategy of
`arm_nn_vec_mat_mult_t_s8` (lines 304-405).  Components: write trace, number
of bias elements consumed, return status. -/
def arm_nn_vec_mat_mult_t_s8_scalar (lhs rhs : Nat → Int) (bias : Option (Nat → Int))
    (p : VecMatParams) : List (Nat × Int) × Nat × arm_cmsis_nn_status :=
  let grp := scalarGroups lhs rhs bias p (p.rhs_rows / 3) 0 0 0
  let rem := scalarRemainder lhs rhs bias p (p.rhs_rows % 3)
      (3 * (p.rhs_rows / 3) * p.rhs_cols) grp.2 (3 * (p.rhs_rows / 3) * p.address_offset)
  (grp.1 ++ rem.1, rem.2, arm_cmsis_nn_status.ARM_CMSIS_NN_SUCCESS)

/-- Dual 16-bit-lane multiply-accumulate `SMLAD` of the DSP extension: add the
two lane products of `x` and `y` to the accumulator. -/
def SMLAD (x y : Int × Int) (acc : Int) : Int := acc + x.1 * y.1 + x.2 * y.2

/-- Packed 4-column loop of the DSP strategy's 2-row groups (lines 211-231).
Each iteration reads 4 lhs bytes and 4 weight bytes per row; `SXTAB16` (and its
rotated form) pre-biases the lhs bytes by the 16-bit-truncated `lhs_offset`,
with the per-lane additions wrapping at 16 bits; `SMLAD` accumulates the even
and odd lanes.  Lane order within a block is (1,3) then (0,2), matching the
source's rotate-then-extend pattern. -/
def dspCols4x2 (lhs r0 r1 : Nat → Int) (off16 : Int) : Nat → Int × Int → Int × Int
  | 0, acc => acc
  | Nat.succ j, acc =>
      let a := dspCols4x2 lhs r0 r1 off16 j acc
      let c := 4 * j
      let vec_1 := (toS16 (off16 + lhs (c + 1)), toS16 (off16 + lhs (c + 3)))
      let vec_0 := (toS16 (off16 + lhs c), toS16 (off16 + lhs (c + 2)))
      let acc_0 := SMLAD (r0 c, r0 (c + 2)) vec_0 (SMLAD (r0 (c + 1), r0 (c + 3)) vec_1 a.1)
      let acc_1 := SMLAD (r1 c, r1 (c + 2)) vec_0 (SMLAD (r1 (c + 1), r1 (c + 3)) vec_1 a.2)
      (acc_0, acc_1)

/-- Packed 4-column loop of the DSP strategy's single-row remainder
(lines 271-283). -/
def dspCols4x1 (lhs r0 : Nat → Int) (off16 : Int) : Nat → Int → Int
  | 0, acc => acc
  | Nat.succ j, acc =>
      let a := dspCols4x1 lhs r0 off16 j acc
      let c := 4 * j
      let vec_1 := (toS16 (off16 + lhs (c + 1)), toS16 (off16 + lhs (c + 3)))
      let vec_0 := (toS16 (off16 + lhs c), toS16 (off16 + lhs (c + 2)))
      SMLAD (r0 c, r0 (c + 2)) vec_0 (SMLAD (r0 (c + 1), r0 (c + 3)) vec_1 a)

/-- Scalar tail loop of the DSP strategy's 2-row groups (lines 233-241),
covering columns `start + t` for `t < n` with the full-width `lhs_offset`. -/
def dspTail2 (lhs r0 r1 : Nat → Int) (off : Int) (start : Nat) :
    Nat → Int × Int → Int × Int
  | 0, acc => acc
  | Nat.succ t, acc =>
      let a := dspTail2 lhs r0 r1 off start t acc
      let lhs_temp := lhs (start + t) + off
      (a.1 + lhs_temp * r0 (start + t), a.2 + lhs_temp * r1 (start + t))

/-- Scalar tail loop of the DSP strategy's single-row remainder (lines 285-291). -/
def dspTail1 (lhs r0 : Nat → Int) (off : Int) (start : Nat) : Nat → Int → Int
  | 0, acc => acc
  | Nat.succ t, acc =>
      dspTail1 lhs r0 off start t acc + (lhs (start + t) + off) * r0 (start + t)

/-- Row-pair loop of the DSP strategy (lines 194-257), threading rhs base,
bias cursor and dst base. -/
def dspGroups (lhs rhs : Nat → Int) (bias : Option (Nat → Int)) (p : VecMatParams) :
    Nat → Nat → Nat → Nat → List (Nat × Int) × Nat
  | 0, _, biasIdx, _ => ([], biasIdx)
  | Nat.succ g, rhsBase, biasIdx, dstBase =>
      let init := (biasAt bias biasIdx, biasAt bias (biasIdx + 1))
      let col_loop_cnt := p.rhs_cols / 4
      let r0 := fun c => rhs (rhsBase + c)
      let r1 := fun c => rhs (rhsBase + p.rhs_cols + c)
      let packed := dspCols4x2 lhs r0 r1 (toS16 p.lhs_offset) col_loop_cnt init
      let res := dspTail2 lhs r0 r1 p.lhs_offset (4 * col_loop_cnt)
          (p.rhs_cols - 4 * col_loop_cnt) packed
      let ws := [(dstBase, requantClamp p res.1),
                 (dstBase + p.address_offset, requantClamp p res.2)]
      let next := dspGroups lhs rhs bias p g (rhsBase + 2 * p.rhs_cols)
          (biasAdv bias biasIdx 2) (dstBase + 2 * p.address_offset)
      (ws ++ next.1, next.2)

/-- Shallow embedding of the DSP lane-packed strategy of
`arm_nn_vec_mat_mult_t_s8` (lines 189-302, 405): row pairs followed by the
odd-row remainder (lines 259-302).  Components: write trace, bias elements
consumed, return status. -/
def arm_nn_vec_mat_mult_t_s8_dsp (lhs rhs : Nat → Int) (bias : Option (Nat → Int))
    (p : VecMatParams) : List (Nat × Int) × Nat × arm_cmsis_nn_status :=
  let grp := dspGroups lhs rhs bias p (p.rhs_rows / 2) 0 0 0
  if p.rhs_rows % 2 = 1 then
    let rhsBase := 2 * (p.rhs_rows / 2) * p.rhs_cols
    let dstBase := 2 * (p.rhs_rows / 2) * p.address_offset
    let col_loop_cnt := p.rhs_cols / 4
    let r0 := fun c => rhs (rhsBase + c)
    let packed := dspCols4x1 lhs r0 (toS16 p.lhs_offset) col_loop_cnt (biasAt bias grp.2)
    let res := dspTail1 lhs r0 p.lhs_offset (4 * col_loop_cnt)
        (p.rhs_cols - 4 * col_loop_cnt) packed
    (grp.1 ++ [(dstBase, requantClamp p res)], biasAdv bias grp.2 1,
      arm_cmsis_nn_status.ARM_CMSIS_NN_SUCCESS)
  else
    (grp.1, grp.2, arm_cmsis_nn_status.ARM_CMSIS_NN_SUCCESS)

/-- Lane sum of the first `n` of 16 byte lanes. -/
def sumLanes (v : Nat → Int) : Nat → Int
  | 0 => 0
  | Nat.succ j => sumLanes v j + v j

/-- Lane dot product of the first `n` of 16 byte lanes. -/
def dotLanes (a b : Nat → Int) : Nat → Int
  | 0 => 0
  | Nat.succ j => dotLanes a b j + a j * b j

/-- MVE `vaddvaq_s8`: accumulate the sum of all 16 byte lanes. -/
def vaddvaq_s8 (acc : Int) (v : Nat → Int) : Int := acc + sumLanes v 16

/-- MVE `vmladavaq_s8`: accumulate the dot product of all 16 byte lanes. -/
def vmladavaq_s8 (acc : Int) (a b : Nat → Int) : Int := acc + dotLanes a b 16

/-- Predicated chunk loop of the MVE strategy for one weight row
(lines 95-118 resp. 158-170): `n` chunks of up to 16 columns; `vctp8q` masks
the lanes past the remaining column count, and the zeroing loads make the
masked lanes contribute nothing to either the weight-byte sum or the dot
product.  Returns `(rhs_sum, acc)` for the row. -/
def mveColsRow (lhs rk : Nat → Int) (cols : Nat) : Nat → Int × Int
  | 0 => (0, 0)
  | Nat.succ i =>
      let s := mveColsRow lhs rk cols i
      let act := min (cols - 16 * i) 16
      let input := fun j => if j < act then lhs (16 * i + j) else 0
      let ker := fun j => if j < act then rk (16 * i + j) else 0
      (vaddvaq_s8 s.1 ker, vmladavaq_s8 s.2 ker input)

/-- Row-triple loop of the MVE strategy (lines 76-146).  After the column walk,
bias lanes (3 active under `vctp32q(3)`) are added, then the accumulators are
corrected by `lhs_offset * rhs_sum`; lane 3 of the accumulator vector stays
zero through the whole pipeline.  The store is an unpredicated 4-lane scatter
at offsets `{0, a, 2a, 3a}` when `address_offset > 1` and a 3-lane predicated
contiguous store otherwise (lines 137-144). -/
def mveGroups (lhs rhs : Nat → Int) (bias : Option (Nat → Int)) (p : VecMatParams) :
    Nat → Nat → Nat → Nat → List (Nat × Int) × Nat
  | 0, _, biasIdx, _ => ([], biasIdx)
  | Nat.succ g, rhsBase, biasIdx, dstBase =>
      let col_loop_cnt := (p.rhs_cols + 15) / 16
      let row0 := mveColsRow lhs (fun c => rhs (rhsBase + c)) p.rhs_cols col_loop_cnt
      let row1 := mveColsRow lhs (fun c => rhs (rhsBase + p.rhs_cols + c)) p.rhs_cols col_loop_cnt
      let row2 := mveColsRow lhs (fun c => rhs (rhsBase + 2 * p.rhs_cols + c)) p.rhs_cols
          col_loop_cnt
      let acc_0 := row0.2 + biasAt bias biasIdx + p.lhs_offset * row0.1
      let acc_1 := row1.2 + biasAt bias (biasIdx + 1) + p.lhs_offset * row1.1
      let acc_2 := row2.2 + biasAt bias (biasIdx + 2) + p.lhs_offset * row2.1
      let ws :=
        if 1 < p.address_offset then
          [(dstBase, requantClamp p acc_0),
           (dstBase + p.address_offset, requantClamp p acc_1),
           (dstBase + 2 * p.address_offset, requantClamp p acc_2),
           (dstBase + 3 * p.address_offset, requantClamp p 0)]
        else
          [(dstBase, requantClamp p acc_0),
           (dstBase + 1, requantClamp p acc_1),
           (dstBase + 2, requantClamp p acc_2)]
      let next := mveGroups lhs rhs bias p g (rhsBase + 3 * p.rhs_cols)
          (biasAdv bias biasIdx 3) (dstBase + 3 * p.address_offset)
      (ws ++ next.1, next.2)

/-- Remainder loop of the MVE strategy (lines 148-187): single rows, scalar
post-processing and scalar store. -/
def mveRemainder (lhs rhs : Nat → Int) (bias : Option (Nat → Int)) (p : VecMatParams) :
    Nat → Nat → Nat → Nat → List (Nat × Int) × Nat
  | 0, _, biasIdx, _ => ([], biasIdx)
  | Nat.succ t, rhsBase, biasIdx, dstBase =>
      let col_loop_cnt := (p.rhs_cols + 15) / 16
      let row0 := mveColsRow lhs (fun c => rhs (rhsBase + c)) p.rhs_cols col_loop_cnt
      let acc_0 := row0.2 + biasAt bias biasIdx + row0.1 * p.lhs_offset
      let next := mveRemainder lhs rhs bias p t (rhsBase + p.rhs_cols)
          (biasAdv bias biasIdx 1) (dstBase + p.address_offset)
      ((dstBase, requantClamp p acc_0) :: next.1, next.2)

/-- Shallow embedding of the MVE wide-vector strategy of
`arm_nn_vec_mat_mult_t_s8` (lines 72-187, 405).  Components: write trace, bias
elements consumed, return status. -/
def arm_nn_vec_mat_mult_t_s8_mve (lhs rhs : Nat → Int) (bias : Option (Nat → Int))
    (p : VecMatParams) : List (Nat × Int) × Nat × arm_cmsis_nn_status :=
  let grp := mveGroups lhs rhs bias p (p.rhs_rows / 3) 0 0 0
  let rem := mveRemainder lhs rhs bias p (p.rhs_rows % 3)
      (3 * (p.rhs_rows / 3) * p.rhs_cols) grp.2 (3 * (p.rhs_rows / 3) * p.address_offset)
  (grp.1 ++ rem.1, rem.2, arm_cmsis_nn_status.ARM_CMSIS_NN_SUCCESS)

/-- Memory state after performing a list of byte writes in order. -/
def runWrites (m : Nat → Int) : List (Nat × Int) → Nat → Int
  | [] => m
  | w :: ws => runWrites (fun q => if q = w.1 then w.2 else m q) ws

/-- Reference accumulator for row `r`: bias term plus the offset dot product of
the input vector with matrix row `r`. -/
def rowAcc (lhs rhs : Nat → Int) (off : Int) (cols r : Nat) : Int :=
  dotOff lhs (fun c => rhs (r * cols + c)) off cols

/-- Reference stored value for row `r`. -/
def rowVal (lhs rhs : Nat → Int) (bias : Option (Nat → Int)) (p : VecMatParams) (r : Nat) :
    Int :=
  requantClamp p (biasAt bias r + rowAcc lhs rhs p.lhs_offset p.rhs_cols r)

/-- Value of a row just before clamping: requantized accumulator plus
`dst_offset`. -/
def rowPre (lhs rhs : Nat → Int) (bias : Option (Nat → Int)) (p : VecMatParams) (r : Nat) :
    Int :=
  arm_nn_requantize (biasAt bias r + rowAcc lhs rhs p.lhs_offset p.rhs_cols r)
    p.dst_multiplier p.dst_shift + p.dst_offset

/-- Reference write trace for `t` rows starting at row `s`: one write per row
at byte offset `row * address_offset`. -/
def rowsWrites (lhs rhs : Nat → Int) (bias : Option (Nat → Int)) (p : VecMatParams) :
    Nat → Nat → List (Nat × Int)
  | _, 0 => []
  | s, Nat.succ t =>
      (s * p.address_offset, rowVal lhs rhs bias p s) :: rowsWrites lhs rhs bias p (s + 1) t

/-- Reference shape of the MVE strategy's group writes, `g` groups starting at
group index `s`: when `address_offset > 1` each group scatters four bytes (the
three row results plus the zero-lane byte at `(3 s + 3) * address_offset`), and
otherwise it stores the three row results contiguously. -/
def mveShape (lhs rhs : Nat → Int) (bias : Option (Nat → Int)) (p : VecMatParams) :
    Nat → Nat → List (Nat × Int)
  | _, 0 => []
  | s, Nat.succ g =>
      (if 1 < p.address_offset then
        [(3 * s * p.address_offset, rowVal lhs rhs bias p (3 * s)),
         ((3 * s + 1) * p.address_offset, rowVal lhs rhs bias p (3 * s + 1)),
         ((3 * s + 2) * p.address_offset, rowVal lhs rhs bias p (3 * s + 2)),
         ((3 * s + 3) * p.address_offset, requantClamp p 0)]
      else
        [(3 * s * p.address_offset, rowVal lhs rhs bias p (3 * s)),
         (3 * s * p.address_offset + 1, rowVal lhs rhs bias p (3 * s + 1)),
         (3 * s * p.address_offset + 2, rowVal lhs rhs bias p (3 * s + 2))])
      ++ mveShape lhs rhs bias p (s + 1) g

theorem dotOff_split (lhs w : Nat → Int) (off : Int) :
    ∀ n, dotOff lhs w off n = dotFrom w lhs 0 n + off * sumFrom w 0 n := by
  intro n
  induction n with
  | zero => simp [dotOff, dotFrom, sumFrom]
  | succ n ih => simp [dotOff, dotFrom, sumFrom, ih]; ring

theorem dotOff_congr (lhs w1 w2 : Nat → Int) (off : Int) :
    ∀ n, (∀ c, c < n → w1 c = w2 c) → dotOff lhs w1 off n = dotOff lhs w2 off n := by
  intro n
  induction n with
  | zero => intro _; rfl
  | succ n ih =>
      intro h
      simp only [dotOff, ih (fun c hc => h c (Nat.lt_succ_of_lt hc)), h n (Nat.lt_succ_self n)]

theorem scalarCols3_eq (lhs r0 r1 r2 : Nat → Int) (off : Int) :
    ∀ n init, scalarCols3 lhs r0 r1 r2 off n init =
      (init.1 + dotOff lhs r0 off n, init.2.1 + dotOff lhs r1 off n,
        init.2.2 + dotOff lhs r2 off n) := by
  intro n
  induction n with
  | zero => intro init; simp [scalarCols3, dotOff]
  | succ n ih =>
      intro init
      simp only [scalarCols3, dotOff, ih]
      refine Prod.ext ?_ (Prod.ext ?_ ?_) <;> simp <;> ring

theorem scalarCols1_eq (lhs r0 : Nat → Int) (off : Int) :
    ∀ n init, scalarCols1 lhs r0 off n init = init + dotOff lhs r0 off n := by
  intro n
  induction n with
  | zero => intro init; simp [scalarCols1, dotOff]
  | succ n ih => intro init; simp only [scalarCols1, dotOff, ih]; ring

theorem rowsWrites_append (lhs rhs : Nat → Int) (bias : Option (Nat → Int))
    (p : VecMatParams) : ∀ u s t, rowsWrites lhs rhs bias p s (u + t)
      = rowsWrites lhs rhs bias p s u ++ rowsWrites lhs rhs bias p (s + u) t := by
  intro u
  induction u with
  | zero => intro s t; simp [rowsWrites, Nat.zero_add]
  | succ u ih =>
      intro s t
      have h1 : Nat.succ u + t = Nat.succ (u + t) := by omega
      have h2 : s + Nat.succ u = (s + 1) + u := by omega
      rw [h1, h2]
      simp only [rowsWrites, ih (s + 1) t, List.cons_append]

theorem scalarGroups_trace (lhs rhs : Nat → Int) (bias : Option (Nat → Int))
    (p : VecMatParams) :
    ∀ g s k, (∀ i, biasAt bias (k + i) = biasAt bias (3 * s + i)) →
      scalarGroups lhs rhs bias p g (3 * s * p.rhs_cols) k (3 * s * p.address_offset)
        = (rowsWrites lhs rhs bias p (3 * s) (3 * g), biasAdv bias k (3 * g)) := by
  intro g
  induction g with
  | zero =>
      intro s k _
      cases bias <;> simp [scalarGroups, rowsWrites, biasAdv]
  | succ g ih =>
      intro s k hk
      have hrb : 3 * s * p.rhs_cols + 3 * p.rhs_cols = 3 * (s + 1) * p.rhs_cols := by ring
      have hdb : 3 * s * p.address_offset + 3 * p.address_offset
          = 3 * (s + 1) * p.address_offset := by ring
      have hk3 : ∀ i, biasAt bias (biasAdv bias k 3 + i)
          = biasAt bias (3 * (s + 1) + i) := by
        intro i
        cases bias with
        | none => rfl
        | some b =>
            have h1 : k + 3 + i = k + (3 + i) := by omega
            have h2 : 3 * s + (3 + i) = 3 * (s + 1) + i := by omega
            simpa [biasAdv, h1, h2] using hk (3 + i)
      have hrec := ih (s + 1) (biasAdv bias k 3) hk3
      simp only [scalarGroups, hrb, hdb, hrec]
      have hv0 : requantClamp p (biasAt bias k + dotOff lhs
          (fun c => rhs (3 * s * p.rhs_cols + c)) p.lhs_offset p.rhs_cols)
          = rowVal lhs rhs bias p (3 * s) := by
        have hb := hk 0
        simp only [Nat.add_zero] at hb
        rw [rowVal, rowAcc, hb]
      have hv1 : requantClamp p (biasAt bias (k + 1) + dotOff lhs
          (fun c => rhs (3 * s * p.rhs_cols + p.rhs_cols + c)) p.lhs_offset p.rhs_cols)
          = rowVal lhs rhs bias p (3 * s + 1) := by
        rw [rowVal, rowAcc, hk 1]
        congr 2
        exact dotOff_congr lhs _ _ p.lhs_offset p.rhs_cols
          (fun c _ => by have : 3 * s * p.rhs_cols + p.rhs_cols + c
                            = (3 * s + 1) * p.rhs_cols + c := by ring
                         rw [this])
      have hv2 : requantClamp p (biasAt bias (k + 2) + dotOff lhs
          (fun c => rhs (3 * s * p.rhs_cols + 2 * p.rhs_cols + c)) p.lhs_offset p.rhs_cols)
          = rowVal lhs rhs bias p (3 * s + 2) := by
        rw [rowVal, rowAcc, hk 2]
        congr 2
        exact dotOff_congr lhs _ _ p.lhs_offset p.rhs_cols
          (fun c _ => by have : 3 * s * p.rhs_cols + 2 * p.rhs_cols + c
                            = (3 * s + 2) * p.rhs_cols + c := by ring
                         rw [this])
      have h3g : 3 * Nat.succ g = Nat.succ (Nat.succ (Nat.succ (3 * g))) := by omega
      rw [h3g]
      simp only [rowsWrites, scalarCols3_eq]
      refine Prod.ext ?_ ?_
      · simp only [List.cons_append, List.nil_append]
        have e1 : 3 * s * p.address_offset = (3 * s) * p.address_offset := by ring
        have e2 : 3 * s * p.address_offset + p.address_offset
            = (3 * s + 1) * p.address_offset := by ring
        have e3 : 3 * s * p.address_offset + 2 * p.address_offset
            = (3 * s + 2) * p.address_offset := by ring
        have e4 : 3 * s + 3 = 3 * (s + 1) := by ring
        simp only [hv0, hv1, hv2, e2, e3, e4]
      · cases bias <;> simp [biasAdv] <;> omega

theorem scalarRemainder_trace (lhs rhs : Nat → Int) (bias : Option (Nat → Int))
    (p : VecMatParams) :
    ∀ t s k, (∀ i, biasAt bias (k + i) = biasAt bias (s + i)) →
      scalarRemainder lhs rhs bias p t (s * p.rhs_cols) k (s * p.address_offset)
        = (rowsWrites lhs rhs bias p s t, biasAdv bias k t) := by
  intro t
  induction t with
  | zero =>
      intro s k _
      cases bias <;> simp [scalarRemainder, rowsWrites, biasAdv]
  | succ t ih =>
      intro s k hk
      have hrb : s * p.rhs_cols + p.rhs_cols = (s + 1) * p.rhs_cols := by ring
      have hdb : s * p.address_offset + p.address_offset = (s + 1) * p.address_offset := by
        ring
      have hk1 : ∀ i, biasAt bias (biasAdv bias k 1 + i) = biasAt bias ((s + 1) + i) := by
        intro i
        cases bias with
        | none => rfl
        | some b =>
            have h1 : k + 1 + i = k + (1 + i) := by omega
            have h2 : s + (1 + i) = (s + 1) + i := by omega
            simpa [biasAdv, h1, h2] using hk (1 + i)
      have hrec := ih (s + 1) (biasAdv bias k 1) hk1
      simp only [scalarRemainder, hrb, hdb, hrec, scalarCols1_eq]
      have hv : requantClamp p (biasAt bias k + dotOff lhs
          (fun c => rhs (s * p.rhs_cols + c)) p.lhs_offset p.rhs_cols)
          = rowVal lhs rhs bias p s := by
        have hb := hk 0
        simp only [Nat.add_zero] at hb
        rw [rowVal, rowAcc, hb]
      rw [hv]
      refine Prod.ext rfl ?_
      cases bias <;> simp [biasAdv] <;> omega

theorem scalar_out (lhs rhs : Nat → Int) (bias : Option (Nat → Int)) (p : VecMatParams) :
    arm_nn_vec_mat_mult_t_s8_scalar lhs rhs bias p
      = (rowsWrites lhs rhs bias p 0 p.rhs_rows, biasAdv bias 0 p.rhs_rows,
         arm_cmsis_nn_status.ARM_CMSIS_NN_SUCCESS) := by
  unfold arm_nn_vec_mat_mult_t_s8_scalar
  have h0 := scalarGroups_trace lhs rhs bias p (p.rhs_rows / 3) 0 0 (fun i => rfl)
  simp only [Nat.mul_zero, Nat.zero_mul] at h0
  have hk : ∀ i, biasAt bias (biasAdv bias 0 (3 * (p.rhs_rows / 3)) + i)
      = biasAt bias (3 * (p.rhs_rows / 3) + i) := by
    intro i
    cases bias with
    | none => rfl
    | some b => simp [biasAdv]
  have h1 := scalarRemainder_trace lhs rhs bias p (p.rhs_rows % 3) (3 * (p.rhs_rows / 3))
      (biasAdv bias 0 (3 * (p.rhs_rows / 3))) hk
  simp only [h0, h1]
  have hsplit : p.rhs_rows = 3 * (p.rhs_rows / 3) + p.rhs_rows % 3 := by omega
  have happ := rowsWrites_append lhs rhs bias p (3 * (p.rhs_rows / 3)) 0 (p.rhs_rows % 3)
  simp only [Nat.zero_add] at happ
  refine Prod.ext ?_ (Prod.ext ?_ rfl)
  · simp only [List.append_nil]
    rw [← happ, ← hsplit]
  · cases bias <;> simp [biasAdv] <;> omega

theorem runWrites_append (xs : List (Nat × Int)) :
    ∀ ys m, runWrites m (xs ++ ys) = runWrites (runWrites m xs) ys := by
  induction xs with
  | nil => intro ys m; rfl
  | cons x xs ih =>
      intro ys m
      simp only [List.cons_append, runWrites]
      exact ih ys _

theorem runWrites_not_written (ws : List (Nat × Int)) :
    ∀ m q, (∀ w ∈ ws, w.1 ≠ q) → runWrites m ws q = m q := by
  induction ws with
  | nil => intro m q _; rfl
  | cons x xs ih =>
      intro m q h
      have hx : x.1 ≠ q := h x (List.mem_cons_self x xs)
      simp only [runWrites]
      rw [ih _ q (fun w hw => h w (List.mem_cons_of_mem x hw))]
      rw [if_neg (fun hq => hx hq.symm)]

theorem rowsWrites_mem (lhs rhs : Nat → Int) (bias : Option (Nat → Int))
    (p : VecMatParams) :
    ∀ t s w, w ∈ rowsWrites lhs rhs bias p s t →
      ∃ i, s ≤ i ∧ i < s + t ∧ w = (i * p.address_offset, rowVal lhs rhs bias p i) := by
  intro t
  induction t with
  | zero => intro s w hw; simp [rowsWrites] at hw
  | succ t ih =>
      intro s w hw
      simp only [rowsWrites, List.mem_cons] at hw
      rcases hw with hw | hw
      · exact ⟨s, Nat.le_refl s, by omega, hw⟩
      · rcases ih (s + 1) w hw with ⟨i, hi1, hi2, hi3⟩
        exact ⟨i, by omega, by omega, hi3⟩

theorem runWrites_rowsWrites (lhs rhs : Nat → Int) (bias : Option (Nat → Int))
    (p : VecMatParams) (ha : 1 ≤ p.address_offset) :
    ∀ t s r m, s ≤ r → r < s + t →
      runWrites m (rowsWrites lhs rhs bias p s t) (r * p.address_offset)
        = rowVal lhs rhs bias p r := by
  intro t
  induction t with
  | zero => intro s r m hs hr; omega
  | succ t ih =>
      intro s r m hs hr
      simp only [rowsWrites, runWrites]
      by_cases hsr : r = s
      · subst hsr
        rw [runWrites_not_written]
        · simp
        · intro w hw
          rcases rowsWrites_mem lhs rhs bias p t (r + 1) w hw with ⟨i, hi1, _, hi3⟩
          rw [hi3]
          intro hcon
          have : i = r := Nat.eq_of_mul_eq_mul_right (by omega) hcon
          omega
      · exact ih (s + 1) r _ (by omega) (by omega)

theorem toS8_eq_self (x : Int) (h1 : -128 ≤ x) (h2 : x ≤ 127) : toS8 x = x := by
  unfold toS8
  rw [Int.emod_eq_of_lt (by omega) (by omega)]
  omega

/-- C2: for every valid input with `rhs_cols ≥ 1` and `address_offset ≥ 1` and
every row `r < rhs_rows`, the scalar strategy stores at byte offset
`r * address_offset` the value `toS8 (clamp (requantize (bias_r + Σ_c (lhs c +
lhs_offset) * rhs (r * rhs_cols + c)) + dst_offset))`, where `bias_r` is
`bias r` when bias is present and `0` otherwise; and the bias cursor advances
exactly once per row in row order, consuming `rhs_rows` entries in total when
bias is present and none otherwise. -/
theorem claim_C2_scalar_row_value (lhs rhs : Nat → Int) (bias : Option (Nat → Int))
    (p : VecMatParams) (m0 : Nat → Int) (r : Nat) (hcols : 1 ≤ p.rhs_cols)
    (ha : 1 ≤ p.address_offset) (hr : r < p.rhs_rows) :
    runWrites m0 (arm_nn_vec_mat_mult_t_s8_scalar lhs rhs bias p).1
        (r * p.address_offset)
      = toS8 (min (max (arm_nn_requantize
          (biasAt bias r
            + dotOff lhs (fun c => rhs (r * p.rhs_cols + c)) p.lhs_offset p.rhs_cols)
          p.dst_multiplier p.dst_shift + p.dst_offset)
          p.activation_min) p.activation_max)
    ∧ (arm_nn_vec_mat_mult_t_s8_scalar lhs rhs bias p).2.1 = biasAdv bias 0 p.rhs_rows := by
  rw [scalar_out]
  refine ⟨?_, rfl⟩
  rw [runWrites_rowsWrites lhs rhs bias p ha p.rhs_rows 0 r m0 (Nat.zero_le r)
    (by omega)]
  rfl

/-- Witness for C2 on the spec's first scenario: `lhs = [1,2,3,4]`,
`rhs = [1,1,1,1]`, no bias, unit scale, stride 1; row 0 stores 10. -/
theorem claim_C2_scalar_row_value_witness :
    (1 ≤ (4:Nat)) ∧
    (runWrites (fun _ => (-1 : Int))
        (arm_nn_vec_mat_mult_t_s8_scalar (fun c => [1, 2, 3, 4].getD c 0) (fun _ => 1)
          none ⟨0, 0, 1, -31, 4, 1, -128, 127, 1⟩).1 (0 * 1)
      = toS8 (min (max (arm_nn_requantize
          (biasAt none 0
            + dotOff (fun c => [1, 2, 3, 4].getD c 0) (fun c => (fun _ => (1:Int)) (0 * 4 + c))
            0 4) 1 (-31) + 0) (-128)) 127)
    ∧ (arm_nn_vec_mat_mult_t_s8_scalar (fun c => [1, 2, 3, 4].getD c 0) (fun _ => 1)
          none ⟨0, 0, 1, -31, 4, 1, -128, 127, 1⟩).2.1 = biasAdv none 0 1) := by
  refine ⟨by decide, ?_⟩
  exact claim_C2_scalar_row_value (fun c => [1, 2, 3, 4].getD c 0) (fun _ => 1) none
    ⟨0, 0, 1, -31, 4, 1, -128, 127, 1⟩ (fun _ => (-1 : Int)) 0 (by decide) (by decide)
    (by decide)

theorem toS16_eq_self (x : Int) (h1 : -32768 ≤ x) (h2 : x ≤ 32767) : toS16 x = x := by
  unfold toS16
  rw [Int.emod_eq_of_lt (by omega) (by omega)]
  omega

theorem toS16_biased (off l : Int) (hl1 : -128 ≤ l) (hl2 : l ≤ 127)
    (ho1 : -32640 ≤ off) (ho2 : off ≤ 32640) : toS16 (toS16 off + l) = l + off := by
  rw [toS16_eq_self off (by omega) (by omega),
    toS16_eq_self (off + l) (by omega) (by omega)]
  omega

theorem dotOff_from_split (lhs w : Nat → Int) (off : Int) (s : Nat) :
    ∀ t, dotOff lhs w off (s + t) = dotOff lhs w off s + dotOffFrom lhs w off s t := by
  intro t
  induction t with
  | zero => simp [dotOffFrom]
  | succ t ih =>
      have h : s + Nat.succ t = Nat.succ (s + t) := by omega
      rw [h]
      simp only [dotOff, dotOffFrom, ih]
      ring

theorem dotOff_split_at (lhs w : Nat → Int) (off : Int) (n m : Nat) (h : m ≤ n) :
    dotOff lhs w off n = dotOff lhs w off m + dotOffFrom lhs w off m (n - m) := by
  have e : n = m + (n - m) := by omega
  conv_lhs => rw [e]
  rw [dotOff_from_split]

theorem dotOff_add_four (lhs w : Nat → Int) (off : Int) (m : Nat) :
    dotOff lhs w off (m + 4) = dotOff lhs w off m
      + (lhs m + off) * w m + (lhs (m + 1) + off) * w (m + 1)
      + (lhs (m + 2) + off) * w (m + 2) + (lhs (m + 3) + off) * w (m + 3) := rfl

theorem dspCols4x2_eq (lhs r0 r1 : Nat → Int) (off16 off : Int) :
    ∀ n init, (∀ c, c < 4 * n → toS16 (off16 + lhs c) = lhs c + off) →
      dspCols4x2 lhs r0 r1 off16 n init
        = (init.1 + dotOff lhs r0 off (4 * n), init.2 + dotOff lhs r1 off (4 * n)) := by
  intro n
  induction n with
  | zero => intro init _; simp [dspCols4x2, dotOff]
  | succ n ih =>
      intro init h
      have h4 : 4 * Nat.succ n = Nat.succ (Nat.succ (Nat.succ (Nat.succ (4 * n)))) := by
        omega
      simp only [dspCols4x2, SMLAD,
        ih init (fun c hc => h c (by omega)),
        h (4 * n) (by omega), h (4 * n + 1) (by omega), h (4 * n + 2) (by omega),
        h (4 * n + 3) (by omega), h4, dotOff]
      refine Prod.ext ?_ ?_ <;> simp <;> ring

theorem dspCols4x1_eq (lhs r0 : Nat → Int) (off16 off : Int) :
    ∀ n init, (∀ c, c < 4 * n → toS16 (off16 + lhs c) = lhs c + off) →
      dspCols4x1 lhs r0 off16 n init = init + dotOff lhs r0 off (4 * n) := by
  intro n
  induction n with
  | zero => intro init _; simp [dspCols4x1, dotOff]
  | succ n ih =>
      intro init h
      rw [show 4 * Nat.succ n = 4 * n + 4 from by omega, dotOff_add_four]
      simp only [dspCols4x1, SMLAD, ih init (fun c hc => h c (by omega)),
        h (4 * n) (by omega), h (4 * n + 1) (by omega), h (4 * n + 2) (by omega),
        h (4 * n + 3) (by omega)]
      ring

theorem dspTail2_eq (lhs r0 r1 : Nat → Int) (off : Int) (start : Nat) :
    ∀ t init, dspTail2 lhs r0 r1 off start t init
      = (init.1 + dotOffFrom lhs r0 off start t, init.2 + dotOffFrom lhs r1 off start t)
    := by
  intro t
  induction t with
  | zero => intro init; simp [dspTail2, dotOffFrom]
  | succ t ih =>
      intro init
      simp only [dspTail2, dotOffFrom, ih]
      refine Prod.ext ?_ ?_ <;> simp <;> ring

theorem dspTail1_eq (lhs r0 : Nat → Int) (off : Int) (start : Nat) :
    ∀ t init, dspTail1 lhs r0 off start t init = init + dotOffFrom lhs r0 off start t := by
  intro t
  induction t with
  | zero => intro init; simp [dspTail1, dotOffFrom]
  | succ t ih =>
      intro init
      simp only [dspTail1, dotOffFrom, ih]
      ring

theorem dsp_hid (lhs : Nat → Int) (p : VecMatParams) (n : Nat) (hn : 4 * n ≤ p.rhs_cols)
    (hl : ∀ c, c < p.rhs_cols → -128 ≤ lhs c ∧ lhs c ≤ 127)
    (ho1 : -32640 ≤ p.lhs_offset) (ho2 : p.lhs_offset ≤ 32640) :
    ∀ c, c < 4 * n → toS16 (toS16 p.lhs_offset + lhs c) = lhs c + p.lhs_offset := by
  intro c hc
  have hb := hl c (by omega)
  exact toS16_biased p.lhs_offset (lhs c) hb.1 hb.2 ho1 ho2

theorem dspGroups_trace (lhs rhs : Nat → Int) (bias : Option (Nat → Int))
    (p : VecMatParams) (hl : ∀ c, c < p.rhs_cols → -128 ≤ lhs c ∧ lhs c ≤ 127)
    (ho1 : -32640 ≤ p.lhs_offset) (ho2 : p.lhs_offset ≤ 32640) :
    ∀ g s k, (∀ i, biasAt bias (k + i) = biasAt bias (2 * s + i)) →
      dspGroups lhs rhs bias p g (2 * s * p.rhs_cols) k (2 * s * p.address_offset)
        = (rowsWrites lhs rhs bias p (2 * s) (2 * g), biasAdv bias k (2 * g)) := by
  intro g
  induction g with
  | zero =>
      intro s k _
      cases bias <;> simp [dspGroups, rowsWrites, biasAdv]
  | succ g ih =>
      intro s k hk
      have hrb : 2 * s * p.rhs_cols + 2 * p.rhs_cols = 2 * (s + 1) * p.rhs_cols := by ring
      have hdb : 2 * s * p.address_offset + 2 * p.address_offset
          = 2 * (s + 1) * p.address_offset := by ring
      have hk2 : ∀ i, biasAt bias (biasAdv bias k 2 + i)
          = biasAt bias (2 * (s + 1) + i) := by
        intro i
        cases bias with
        | none => rfl
        | some b =>
            have h1 : k + 2 + i = k + (2 + i) := by omega
            have h2 : 2 * s + (2 + i) = 2 * (s + 1) + i := by omega
            simpa [biasAdv, h1, h2] using hk (2 + i)
      have hrec := ih (s + 1) (biasAdv bias k 2) hk2
      have hid := dsp_hid lhs p (p.rhs_cols / 4) (by omega) hl ho1 ho2
      have hcols : 4 * (p.rhs_cols / 4) + (p.rhs_cols - 4 * (p.rhs_cols / 4))
          = p.rhs_cols := by omega
      simp only [dspGroups, hrb, hdb, hrec, dspCols4x2_eq lhs _ _ (toS16 p.lhs_offset)
        p.lhs_offset (p.rhs_cols / 4) _ hid, dspTail2_eq]
      have hv0 : requantClamp p (biasAt bias k + dotOff lhs
            (fun c => rhs (2 * s * p.rhs_cols + c)) p.lhs_offset (4 * (p.rhs_cols / 4))
          + dotOffFrom lhs (fun c => rhs (2 * s * p.rhs_cols + c)) p.lhs_offset
            (4 * (p.rhs_cols / 4)) (p.rhs_cols - 4 * (p.rhs_cols / 4)))
          = rowVal lhs rhs bias p (2 * s) := by
        have hb := hk 0
        simp only [Nat.add_zero] at hb
        rw [rowVal, rowAcc, hb,
          dotOff_split_at lhs _ p.lhs_offset p.rhs_cols (4 * (p.rhs_cols / 4)) (by omega)]
        congr 1
        ring
      have hv1 : requantClamp p (biasAt bias (k + 1) + dotOff lhs
            (fun c => rhs (2 * s * p.rhs_cols + p.rhs_cols + c)) p.lhs_offset
            (4 * (p.rhs_cols / 4))
          + dotOffFrom lhs (fun c => rhs (2 * s * p.rhs_cols + p.rhs_cols + c))
            p.lhs_offset (4 * (p.rhs_cols / 4)) (p.rhs_cols - 4 * (p.rhs_cols / 4)))
          = rowVal lhs rhs bias p (2 * s + 1) := by
        rw [rowVal, rowAcc, hk 1]
        have hc : dotOff lhs (fun c => rhs ((2 * s + 1) * p.rhs_cols + c))
            p.lhs_offset p.rhs_cols
            = dotOff lhs (fun c => rhs (2 * s * p.rhs_cols + p.rhs_cols + c)) p.lhs_offset
              p.rhs_cols :=
          dotOff_congr lhs _ _ p.lhs_offset p.rhs_cols
            (fun c _ => by have h : (2 * s + 1) * p.rhs_cols + c
                              = 2 * s * p.rhs_cols + p.rhs_cols + c := by ring
                           rw [h])
        rw [hc,
          dotOff_split_at lhs _ p.lhs_offset p.rhs_cols (4 * (p.rhs_cols / 4)) (by omega)]
        congr 1
        ring
      have h2g : 2 * Nat.succ g = Nat.succ (Nat.succ (2 * g)) := by omega
      rw [h2g]
      simp only [rowsWrites]
      refine Prod.ext ?_ ?_
      · simp only [List.cons_append, List.nil_append]
        have e2 : 2 * s * p.address_offset + p.address_offset
            = (2 * s + 1) * p.address_offset := by ring
        have e4 : 2 * s + 2 = 2 * (s + 1) := by ring
        simp only [hv0, hv1, e2, e4]
      · cases bias <;> simp [biasAdv] <;> omega

theorem dsp_out (lhs rhs : Nat → Int) (bias : Option (Nat → Int)) (p : VecMatParams)
    (hl : ∀ c, c < p.rhs_cols → -128 ≤ lhs c ∧ lhs c ≤ 127)
    (ho1 : -32640 ≤ p.lhs_offset) (ho2 : p.lhs_offset ≤ 32640) :
    arm_nn_vec_mat_mult_t_s8_dsp lhs rhs bias p
      = (rowsWrites lhs rhs bias p 0 p.rhs_rows, biasAdv bias 0 p.rhs_rows,
         arm_cmsis_nn_status.ARM_CMSIS_NN_SUCCESS) := by
  unfold arm_nn_vec_mat_mult_t_s8_dsp
  have h0 := dspGroups_trace lhs rhs bias p hl ho1 ho2 (p.rhs_rows / 2) 0 0 (fun i => rfl)
  simp only [Nat.mul_zero, Nat.zero_mul] at h0
  have hid := dsp_hid lhs p (p.rhs_cols / 4) (by omega) hl ho1 ho2
  have hcols : 4 * (p.rhs_cols / 4) + (p.rhs_cols - 4 * (p.rhs_cols / 4)) = p.rhs_cols := by
    omega
  by_cases hodd : p.rhs_rows % 2 = 1
  · simp only [h0, hodd, if_pos rfl]
    have hv : requantClamp p (dspTail1 lhs (fun c => rhs (2 * (p.rhs_rows / 2) * p.rhs_cols + c))
          p.lhs_offset (4 * (p.rhs_cols / 4)) (p.rhs_cols - 4 * (p.rhs_cols / 4))
          (dspCols4x1 lhs (fun c => rhs (2 * (p.rhs_rows / 2) * p.rhs_cols + c))
            (toS16 p.lhs_offset) (p.rhs_cols / 4)
            (biasAt bias (biasAdv bias 0 (2 * (p.rhs_rows / 2))))))
        = rowVal lhs rhs bias p (2 * (p.rhs_rows / 2)) := by
      rw [dspCols4x1_eq lhs _ (toS16 p.lhs_offset) p.lhs_offset (p.rhs_cols / 4) _ hid,
        dspTail1_eq, rowVal, rowAcc]
      have hb : biasAt bias (biasAdv bias 0 (2 * (p.rhs_rows / 2)))
          = biasAt bias (2 * (p.rhs_rows / 2)) := by
        cases bias <;> simp [biasAdv, biasAt]
      rw [hb,
        dotOff_split_at lhs _ p.lhs_offset p.rhs_cols (4 * (p.rhs_cols / 4)) (by omega)]
      congr 1
      ring
    have hsplit : p.rhs_rows = 2 * (p.rhs_rows / 2) + 1 := by omega
    have happ := rowsWrites_append lhs rhs bias p (2 * (p.rhs_rows / 2)) 0 1
    simp only [Nat.zero_add] at happ
    refine Prod.ext ?_ (Prod.ext ?_ rfl)
    · simp only [hv]
      conv_rhs => rw [hsplit]
      rw [happ]
      simp [rowsWrites]
    · cases bias <;> simp [biasAdv] <;> omega
  · have heven : 2 * (p.rhs_rows / 2) = p.rhs_rows := by omega
    rw [heven] at h0
    simp [h0, hodd]

theorem sumFrom_add (w : Nat → Int) (base s : Nat) :
    ∀ t, sumFrom w base (s + t) = sumFrom w base s + sumFrom w (base + s) t := by
  intro t
  induction t with
  | zero => simp [sumFrom]
  | succ t ih =>
      have h : s + Nat.succ t = Nat.succ (s + t) := by omega
      rw [h]
      simp only [sumFrom, ih]
      rw [show base + (s + t) = base + s + t from by omega]
      ring

theorem dotFrom_add (a b : Nat → Int) (base s : Nat) :
    ∀ t, dotFrom a b base (s + t) = dotFrom a b base s + dotFrom a b (base + s) t := by
  intro t
  induction t with
  | zero => simp [dotFrom]
  | succ t ih =>
      have h : s + Nat.succ t = Nat.succ (s + t) := by omega
      rw [h]
      simp only [dotFrom, ih]
      rw [show base + (s + t) = base + s + t from by omega]
      ring

theorem sumLanes_mask (w : Nat → Int) (base act : Nat) :
    ∀ L, sumLanes (fun j => if j < act then w (base + j) else 0) L
      = sumFrom w base (min act L) := by
  intro L
  induction L with
  | zero => simp [sumLanes, sumFrom]
  | succ L ih =>
      simp only [sumLanes, ih]
      by_cases h : L < act
      · rw [if_pos h, show min act L = L from by omega,
          show min act (Nat.succ L) = Nat.succ L from by omega]
        simp [sumFrom]
      · rw [if_neg h, show min act (Nat.succ L) = min act L from by omega]
        ring

theorem dotLanes_mask (w l : Nat → Int) (base act : Nat) :
    ∀ L, dotLanes (fun j => if j < act then w (base + j) else 0)
        (fun j => if j < act then l (base + j) else 0) L
      = dotFrom w l base (min act L) := by
  intro L
  induction L with
  | zero => simp [dotLanes, dotFrom]
  | succ L ih =>
      simp only [dotLanes, ih]
      by_cases h : L < act
      · rw [if_pos h, if_pos h, show min act L = L from by omega,
          show min act (Nat.succ L) = Nat.succ L from by omega]
        simp [dotFrom]
      · rw [if_neg h, if_neg h, show min act (Nat.succ L) = min act L from by omega]
        ring

theorem mveColsRow_eq (lhs rk : Nat → Int) (cols : Nat) :
    ∀ n, mveColsRow lhs rk cols n
      = (sumFrom rk 0 (min (16 * n) cols), dotFrom rk lhs 0 (min (16 * n) cols)) := by
  intro n
  induction n with
  | zero => simp [mveColsRow, sumFrom, dotFrom]
  | succ n ih =>
      simp only [mveColsRow, ih, vaddvaq_s8, vmladavaq_s8,
        sumLanes_mask rk (16 * n) (min (cols - 16 * n) 16),
        dotLanes_mask rk lhs (16 * n) (min (cols - 16 * n) 16)]
      by_cases hc : 16 * n ≤ cols
      · have hm : min (16 * n) cols = 16 * n := by omega
        have ha : min (min (cols - 16 * n) 16) 16 = min (cols - 16 * n) 16 := by omega
        have hs : min (16 * Nat.succ n) cols = 16 * n + min (cols - 16 * n) 16 := by omega
        rw [hm, ha, hs, sumFrom_add, dotFrom_add,
          show (0 : Nat) + 16 * n = 16 * n from by omega]
      · have hm : min (16 * n) cols = cols := by omega
        have ha : min (min (cols - 16 * n) 16) 16 = 0 := by omega
        have hs : min (16 * Nat.succ n) cols = cols := by omega
        rw [hm, ha, hs]
        simp [sumFrom, dotFrom]

theorem mveRowAcc (lhs rk : Nat → Int) (off bv : Int) (cols : Nat) :
    (mveColsRow lhs rk cols ((cols + 15) / 16)).2 + bv
        + off * (mveColsRow lhs rk cols ((cols + 15) / 16)).1
      = bv + dotOff lhs rk off cols := by
  rw [mveColsRow_eq]
  have h : min (16 * ((cols + 15) / 16)) cols = cols := by omega
  rw [h, dotOff_split]
  ring

theorem mveRowAccR (lhs rk : Nat → Int) (off bv : Int) (cols : Nat) :
    (mveColsRow lhs rk cols ((cols + 15) / 16)).2 + bv
        + (mveColsRow lhs rk cols ((cols + 15) / 16)).1 * off
      = bv + dotOff lhs rk off cols := by
  rw [mveColsRow_eq]
  have h : min (16 * ((cols + 15) / 16)) cols = cols := by omega
  rw [h, dotOff_split]
  ring

theorem mveGroups_trace (lhs rhs : Nat → Int) (bias : Option (Nat → Int))
    (p : VecMatParams) :
    ∀ g s k, (∀ i, biasAt bias (k + i) = biasAt bias (3 * s + i)) →
      mveGroups lhs rhs bias p g (3 * s * p.rhs_cols) k (3 * s * p.address_offset)
        = (mveShape lhs rhs bias p s g, biasAdv bias k (3 * g)) := by
  intro g
  induction g with
  | zero =>
      intro s k _
      cases bias <;> simp [mveGroups, mveShape, biasAdv]
  | succ g ih =>
      intro s k hk
      have hrb : 3 * s * p.rhs_cols + 3 * p.rhs_cols = 3 * (s + 1) * p.rhs_cols := by ring
      have hdb : 3 * s * p.address_offset + 3 * p.address_offset
          = 3 * (s + 1) * p.address_offset := by ring
      have hk3 : ∀ i, biasAt bias (biasAdv bias k 3 + i)
          = biasAt bias (3 * (s + 1) + i) := by
        intro i
        cases bias with
        | none => rfl
        | some b =>
            have h1 : k + 3 + i = k + (3 + i) := by omega
            have h2 : 3 * s + (3 + i) = 3 * (s + 1) + i := by omega
            simpa [biasAdv, h1, h2] using hk (3 + i)
      have hrec := ih (s + 1) (biasAdv bias k 3) hk3
      have hv0 : requantClamp p
          ((mveColsRow lhs (fun c => rhs (3 * s * p.rhs_cols + c)) p.rhs_cols
              ((p.rhs_cols + 15) / 16)).2 + biasAt bias k
            + p.lhs_offset * (mveColsRow lhs (fun c => rhs (3 * s * p.rhs_cols + c))
              p.rhs_cols ((p.rhs_cols + 15) / 16)).1)
          = rowVal lhs rhs bias p (3 * s) := by
        have hb := hk 0
        simp only [Nat.add_zero] at hb
        rw [mveRowAcc, hb, rowVal, rowAcc]
      have hv1 : requantClamp p
          ((mveColsRow lhs (fun c => rhs (3 * s * p.rhs_cols + p.rhs_cols + c)) p.rhs_cols
              ((p.rhs_cols + 15) / 16)).2 + biasAt bias (k + 1)
            + p.lhs_offset * (mveColsRow lhs
              (fun c => rhs (3 * s * p.rhs_cols + p.rhs_cols + c)) p.rhs_cols
              ((p.rhs_cols + 15) / 16)).1)
          = rowVal lhs rhs bias p (3 * s + 1) := by
        rw [mveRowAcc, hk 1, rowVal, rowAcc]
        congr 2
        exact (dotOff_congr lhs _ _ p.lhs_offset p.rhs_cols
          (fun c _ => by have h : 3 * s * p.rhs_cols + p.rhs_cols + c
                            = (3 * s + 1) * p.rhs_cols + c := by ring
                         rw [h]))
      have hv2 : requantClamp p
          ((mveColsRow lhs (fun c => rhs (3 * s * p.rhs_cols + 2 * p.rhs_cols + c))
              p.rhs_cols ((p.rhs_cols + 15) / 16)).2 + biasAt bias (k + 2)
            + p.lhs_offset * (mveColsRow lhs
              (fun c => rhs (3 * s * p.rhs_cols + 2 * p.rhs_cols + c)) p.rhs_cols
              ((p.rhs_cols + 15) / 16)).1)
          = rowVal lhs rhs bias p (3 * s + 2) := by
        rw [mveRowAcc, hk 2, rowVal, rowAcc]
        congr 2
        exact (dotOff_congr lhs _ _ p.lhs_offset p.rhs_cols
          (fun c _ => by have h : 3 * s * p.rhs_cols + 2 * p.rhs_cols + c
                            = (3 * s + 2) * p.rhs_cols + c := by ring
                         rw [h]))
      simp only [mveGroups, mveShape, hrb, hdb, hrec, hv0, hv1, hv2]
      have e1 : 3 * s * p.address_offset + p.address_offset
          = (3 * s + 1) * p.address_offset := by ring
      have e2 : 3 * s * p.address_offset + 2 * p.address_offset
          = (3 * s + 2) * p.address_offset := by ring
      have e3 : 3 * s * p.address_offset + 3 * p.address_offset
          = (3 * s + 3) * p.address_offset := by ring
      refine Prod.ext ?_ ?_
      · by_cases haddr : 1 < p.address_offset
        · simp only [if_pos haddr, e1, e2, e3, List.cons_append, List.nil_append]
          rw [show 3 * (s + 1) * p.address_offset = (3 * s + 3) * p.address_offset
            from by ring]
        · simp only [if_neg haddr, List.cons_append, List.nil_append]
      · cases bias <;> simp [biasAdv] <;> omega

theorem mveRemainder_trace (lhs rhs : Nat → Int) (bias : Option (Nat → Int))
    (p : VecMatParams) :
    ∀ t s k, (∀ i, biasAt bias (k + i) = biasAt bias (s + i)) →
      mveRemainder lhs rhs bias p t (s * p.rhs_cols) k (s * p.address_offset)
        = (rowsWrites lhs rhs bias p s t, biasAdv bias k t) := by
  intro t
  induction t with
  | zero =>
      intro s k _
      cases bias <;> simp [mveRemainder, rowsWrites, biasAdv]
  | succ t ih =>
      intro s k hk
      have hrb : s * p.rhs_cols + p.rhs_cols = (s + 1) * p.rhs_cols := by ring
      have hdb : s * p.address_offset + p.address_offset = (s + 1) * p.address_offset := by
        ring
      have hk1 : ∀ i, biasAt bias (biasAdv bias k 1 + i) = biasAt bias ((s + 1) + i) := by
        intro i
        cases bias with
        | none => rfl
        | some b =>
            have h1 : k + 1 + i = k + (1 + i) := by omega
            have h2 : s + (1 + i) = (s + 1) + i := by omega
            simpa [biasAdv, h1, h2] using hk (1 + i)
      have hrec := ih (s + 1) (biasAdv bias k 1) hk1
      have hv : requantClamp p
          ((mveColsRow lhs (fun c => rhs (s * p.rhs_cols + c)) p.rhs_cols
              ((p.rhs_cols + 15) / 16)).2 + biasAt bias k
            + (mveColsRow lhs (fun c => rhs (s * p.rhs_cols + c)) p.rhs_cols
              ((p.rhs_cols + 15) / 16)).1 * p.lhs_offset)
          = rowVal lhs rhs bias p s := by
        have hb := hk 0
        simp only [Nat.add_zero] at hb
        rw [mveRowAccR, hb, rowVal, rowAcc]
      simp only [mveRemainder, hrb, hdb, hrec, hv]
      refine Prod.ext rfl ?_
      cases bias <;> simp [biasAdv] <;> omega

theorem mve_out (lhs rhs : Nat → Int) (bias : Option (Nat → Int)) (p : VecMatParams) :
    arm_nn_vec_mat_mult_t_s8_mve lhs rhs bias p
      = (mveShape lhs rhs bias p 0 (p.rhs_rows / 3)
           ++ rowsWrites lhs rhs bias p (3 * (p.rhs_rows / 3)) (p.rhs_rows % 3),
         biasAdv bias 0 p.rhs_rows, arm_cmsis_nn_status.ARM_CMSIS_NN_SUCCESS) := by
  unfold arm_nn_vec_mat_mult_t_s8_mve
  have h0 := mveGroups_trace lhs rhs bias p (p.rhs_rows / 3) 0 0 (fun i => rfl)
  simp only [Nat.mul_zero, Nat.zero_mul] at h0
  have hk : ∀ i, biasAt bias (biasAdv bias 0 (3 * (p.rhs_rows / 3)) + i)
      = biasAt bias (3 * (p.rhs_rows / 3) + i) := by
    intro i
    cases bias with
    | none => rfl
    | some b => simp [biasAdv]
  have h1 := mveRemainder_trace lhs rhs bias p (p.rhs_rows % 3) (3 * (p.rhs_rows / 3))
      (biasAdv bias 0 (3 * (p.rhs_rows / 3))) hk
  simp only [h0, h1]
  refine Prod.ext rfl (Prod.ext ?_ rfl)
  cases bias <;> simp [biasAdv] <;> omega

theorem mul_off_ne (a i j : Nat) (ha : 1 ≤ a) (hij : i ≠ j) : i * a ≠ j * a := by
  intro h
  exact hij (Nat.eq_of_mul_eq_mul_right (by omega) h)

theorem mveShape_addr_one (lhs rhs : Nat → Int) (bias : Option (Nat → Int))
    (p : VecMatParams) (h1 : p.address_offset = 1) :
    ∀ g s, mveShape lhs rhs bias p s g = rowsWrites lhs rhs bias p (3 * s) (3 * g) := by
  intro g
  induction g with
  | zero => intro s; simp [mveShape, rowsWrites]
  | succ g ih =>
      intro s
      have h3g : 3 * Nat.succ g = Nat.succ (Nat.succ (Nat.succ (3 * g))) := by omega
      rw [h3g]
      simp only [mveShape, rowsWrites, ih (s + 1), h1, if_neg (by omega : ¬(1:Nat) < 1),
        Nat.mul_one, List.cons_append, List.nil_append]
      rw [show 3 * (s + 1) = 3 * s + 3 from by omega]

theorem mveShape_keys (lhs rhs : Nat → Int) (bias : Option (Nat → Int))
    (p : VecMatParams) (haddr : 1 < p.address_offset) :
    ∀ g s w, w ∈ mveShape lhs rhs bias p s g →
      ∃ i, 3 * s ≤ i ∧ i ≤ 3 * s + 3 * g ∧ w.1 = i * p.address_offset := by
  intro g
  induction g with
  | zero => intro s w hw; simp [mveShape] at hw
  | succ g ih =>
      intro s w hw
      simp only [mveShape, if_pos haddr, List.cons_append, List.nil_append,
        List.mem_cons] at hw
      rcases hw with hw | hw | hw | hw | hw
      · exact ⟨3 * s, by omega, by omega, by rw [hw]⟩
      · exact ⟨3 * s + 1, by omega, by omega, by rw [hw]⟩
      · exact ⟨3 * s + 2, by omega, by omega, by rw [hw]⟩
      · exact ⟨3 * s + 3, by omega, by omega, by rw [hw]⟩
      · rcases ih (s + 1) w hw with ⟨i, hi1, hi2, hi3⟩
        exact ⟨i, by omega, by omega, hi3⟩

theorem mveShape_run (lhs rhs : Nat → Int) (bias : Option (Nat → Int))
    (p : VecMatParams) (haddr : 1 < p.address_offset) :
    ∀ g s r m rest, 3 * s ≤ r → r < 3 * s + 3 * g →
      (∀ w ∈ rest, ∃ i, 3 * s + 3 * g ≤ i ∧ w.1 = i * p.address_offset) →
      runWrites m (mveShape lhs rhs bias p s g ++ rest) (r * p.address_offset)
        = rowVal lhs rhs bias p r := by
  intro g
  induction g with
  | zero => intro s r m rest h1 h2 _; omega
  | succ g ih =>
      intro s r m rest h1 h2 hrest
      simp only [mveShape, if_pos haddr, List.cons_append, List.nil_append, List.append_assoc]
      by_cases hfirst : r < 3 * s + 3
      · simp only [runWrites]
        rw [runWrites_not_written]
        · have hne : ∀ i j : Nat, i ≠ j →
              (i * p.address_offset = j * p.address_offset) → False := by
            intro i j hij h
            exact mul_off_ne p.address_offset i j (by omega) hij h
          rcases (by omega : r = 3 * s ∨ r = 3 * s + 1 ∨ r = 3 * s + 2) with hr | hr | hr
          · subst hr
            rw [if_neg (fun h => hne _ _ (by omega) h.symm),
              if_neg (fun h => hne _ _ (by omega) h.symm),
              if_neg (fun h => hne _ _ (by omega) h.symm), if_pos rfl]
          · subst hr
            rw [if_neg (fun h => hne _ _ (by omega) h.symm),
              if_neg (fun h => hne _ _ (by omega) h.symm), if_pos rfl]
          · subst hr
            rw [if_neg (fun h => hne _ _ (by omega) h.symm), if_pos rfl]
        · intro w hw
          rcases List.mem_append.1 hw with hw | hw
          · rcases mveShape_keys lhs rhs bias p haddr g (s + 1) w hw with ⟨i, hi1, _, hi3⟩
            rw [hi3]
            exact fun h => mul_off_ne p.address_offset i r (by omega) (by omega) h
          · rcases hrest w hw with ⟨i, hi1, hi3⟩
            rw [hi3]
            exact fun h => mul_off_ne p.address_offset i r (by omega) (by omega) h
      · have hsplit : ∀ m2, runWrites m2
            (mveShape lhs rhs bias p (s + 1) g ++ rest) (r * p.address_offset)
            = rowVal lhs rhs bias p r := by
          intro m2
          exact ih (s + 1) r m2 rest (by omega) (by omega)
            (fun w hw => by rcases hrest w hw with ⟨i, hi1, hi3⟩
                            exact ⟨i, by omega, hi3⟩)
        simp only [runWrites]
        exact hsplit _

theorem rowsWrites_length (lhs rhs : Nat → Int) (bias : Option (Nat → Int))
    (p : VecMatParams) : ∀ t s, (rowsWrites lhs rhs bias p s t).length = t := by
  intro t
  induction t with
  | zero => intro s; rfl
  | succ t ih => intro s; simp [rowsWrites, ih]

theorem mveShape_length (lhs rhs : Nat → Int) (bias : Option (Nat → Int))
    (p : VecMatParams) :
    ∀ g s, (mveShape lhs rhs bias p s g).length
      = (if 1 < p.address_offset then 4 else 3) * g := by
  intro g
  induction g with
  | zero => intro s; by_cases h : 1 < p.address_offset <;> simp [mveShape]
  | succ g ih =>
      intro s
      by_cases h : 1 < p.address_offset <;>
        simp [mveShape, h, ih (s + 1), Nat.mul_succ]

theorem dspGroups_length (lhs rhs : Nat → Int) (bias : Option (Nat → Int))
    (p : VecMatParams) :
    ∀ g rb k db, ((dspGroups lhs rhs bias p g rb k db).1).length = 2 * g := by
  intro g
  induction g with
  | zero => intro rb k db; rfl
  | succ g ih =>
      intro rb k db
      simp [dspGroups, ih, Nat.mul_succ]

theorem rowsWrites_stitch3 (lhs rhs : Nat → Int) (bias : Option (Nat → Int))
    (p : VecMatParams) :
    rowsWrites lhs rhs bias p 0 (3 * (p.rhs_rows / 3))
        ++ rowsWrites lhs rhs bias p (3 * (p.rhs_rows / 3)) (p.rhs_rows % 3)
      = rowsWrites lhs rhs bias p 0 p.rhs_rows := by
  have happ := rowsWrites_append lhs rhs bias p (3 * (p.rhs_rows / 3)) 0 (p.rhs_rows % 3)
  simp only [Nat.zero_add] at happ
  rw [← happ]
  congr 1
  omega

theorem mve_writes_addr_one (lhs rhs : Nat → Int) (bias : Option (Nat → Int))
    (p : VecMatParams) (h1 : p.address_offset = 1) :
    (arm_nn_vec_mat_mult_t_s8_mve lhs rhs bias p).1
      = rowsWrites lhs rhs bias p 0 p.rhs_rows := by
  rw [mve_out]
  simp only [mveShape_addr_one lhs rhs bias p h1 (p.rhs_rows / 3) 0, Nat.mul_zero]
  exact rowsWrites_stitch3 lhs rhs bias p

theorem mve_mem (lhs rhs : Nat → Int) (bias : Option (Nat → Int)) (p : VecMatParams)
    (ha : 1 ≤ p.address_offset) (m : Nat → Int) (r : Nat) (hr : r < p.rhs_rows) :
    runWrites m (arm_nn_vec_mat_mult_t_s8_mve lhs rhs bias p).1 (r * p.address_offset)
      = rowVal lhs rhs bias p r := by
  by_cases haddr : 1 < p.address_offset
  · rw [mve_out]
    by_cases hg : r < 3 * (p.rhs_rows / 3)
    · exact mveShape_run lhs rhs bias p haddr (p.rhs_rows / 3) 0 r m
        (rowsWrites lhs rhs bias p (3 * (p.rhs_rows / 3)) (p.rhs_rows % 3))
        (by omega) (by omega)
        (fun w hw => by
          rcases rowsWrites_mem lhs rhs bias p (p.rhs_rows % 3) (3 * (p.rhs_rows / 3)) w hw
            with ⟨i, hi1, _, hi3⟩
          exact ⟨i, by omega, by rw [hi3]⟩)
    · rw [runWrites_append]
      exact runWrites_rowsWrites lhs rhs bias p ha (p.rhs_rows % 3) (3 * (p.rhs_rows / 3))
        r _ (by omega) (by omega)
  · have h1 : p.address_offset = 1 := by omega
    rw [mve_writes_addr_one lhs rhs bias p h1]
    exact runWrites_rowsWrites lhs rhs bias p ha p.rhs_rows 0 r m (by omega) (by omega)

theorem scalar_status (lhs rhs : Nat → Int) (bias : Option (Nat → Int))
    (p : VecMatParams) :
    (arm_nn_vec_mat_mult_t_s8_scalar lhs rhs bias p).2.2
      = arm_cmsis_nn_status.ARM_CMSIS_NN_SUCCESS := by
  rw [scalar_out]

theorem dsp_status (lhs rhs : Nat → Int) (bias : Option (Nat → Int)) (p : VecMatParams) :
    (arm_nn_vec_mat_mult_t_s8_dsp lhs rhs bias p).2.2
      = arm_cmsis_nn_status.ARM_CMSIS_NN_SUCCESS := by
  unfold arm_nn_vec_mat_mult_t_s8_dsp
  by_cases h : p.rhs_rows % 2 = 1 <;> simp [h]

theorem mve_status (lhs rhs : Nat → Int) (bias : Option (Nat → Int)) (p : VecMatParams) :
    (arm_nn_vec_mat_mult_t_s8_mve lhs rhs bias p).2.2
      = arm_cmsis_nn_status.ARM_CMSIS_NN_SUCCESS := by
  rw [mve_out]

/-- C1 counterexample: the three strategies do not write byte-identical `dst`
contents on all valid inputs.  Within the spec's own validity envelope
(`rhs_rows = 3`, `rhs_cols = 1`, `lhs_offset = 0`, bounds `[-128,127]`,
`address_offset = 2`) the wide-vector strategy writes a fourth byte per group:
starting from memory filled with 7, byte 6 stays 7 under the scalar strategy
but becomes 0 under the MVE strategy.  Moreover for `lhs_offset = 65536`
(outside int16 but allowed by the claim's "any lhs_offset") the DSP strategy
stores 1 where the scalar strategy stores 127 at row 0. -/
theorem claim_C1_counterexample :
    runWrites (fun _ => 7)
        (arm_nn_vec_mat_mult_t_s8_scalar (fun _ => 1) (fun c => [1, 2, 3].getD c 0) none
          ⟨0, 0, 1, -31, 1, 3, -128, 127, 2⟩).1 6 = 7
    ∧ runWrites (fun _ => 7)
        (arm_nn_vec_mat_mult_t_s8_mve (fun _ => 1) (fun c => [1, 2, 3].getD c 0) none
          ⟨0, 0, 1, -31, 1, 3, -128, 127, 2⟩).1 6 = 0
    ∧ runWrites (fun _ => 7)
        (arm_nn_vec_mat_mult_t_s8_scalar (fun c => if c = 0 then 1 else 0)
          (fun c => if c = 0 then 1 else 0) none ⟨65536, 0, 1, -31, 4, 1, -128, 127, 1⟩).1 0
        = 127
    ∧ runWrites (fun _ => 7)
        (arm_nn_vec_mat_mult_t_s8_dsp (fun c => if c = 0 then 1 else 0)
          (fun c => if c = 0 then 1 else 0) none ⟨65536, 0, 1, -31, 4, 1, -128, 127, 1⟩).1 0
        = 1 := by
  refine ⟨by decide, by decide, by decide, by decide⟩

/-- C1 (amended): for valid inputs with `lhs_offset` restricted to
`[-32640, 32640]` (so that the DSP strategy's 16-bit pre-bias additions cannot
wrap; the spec's own 9-bit invariant implies this), the three strategies agree
on the byte stored at every output position `r * address_offset` and return
the same status, and when `address_offset = 1` their write traces to `dst`
coincide entirely.  (When `address_offset > 1` the wide-vector strategy
additionally writes one provisional byte per full 3-row group at offset
`(3 g + 3) * address_offset`, so whole-buffer byte-identity fails; all but the
last such byte are later overwritten by the row results.) -/
theorem claim_C1_cross_strategy_amended (lhs rhs : Nat → Int)
    (bias : Option (Nat → Int)) (p : VecMatParams) (m : Nat → Int)
    (hl : ∀ c, c < p.rhs_cols → -128 ≤ lhs c ∧ lhs c ≤ 127)
    (ho1 : -32640 ≤ p.lhs_offset) (ho2 : p.lhs_offset ≤ 32640)
    (hcols : 1 ≤ p.rhs_cols) (ha : 1 ≤ p.address_offset)
    (hact1 : -128 ≤ p.activation_min) (hact2 : p.activation_min ≤ p.activation_max)
    (hact3 : p.activation_max ≤ 127) :
    (∀ r, r < p.rhs_rows →
      runWrites m (arm_nn_vec_mat_mult_t_s8_scalar lhs rhs bias p).1
          (r * p.address_offset)
        = runWrites m (arm_nn_vec_mat_mult_t_s8_dsp lhs rhs bias p).1
          (r * p.address_offset)
      ∧ runWrites m (arm_nn_vec_mat_mult_t_s8_scalar lhs rhs bias p).1
          (r * p.address_offset)
        = runWrites m (arm_nn_vec_mat_mult_t_s8_mve lhs rhs bias p).1
          (r * p.address_offset))
    ∧ (arm_nn_vec_mat_mult_t_s8_scalar lhs rhs bias p).2.2
        = (arm_nn_vec_mat_mult_t_s8_dsp lhs rhs bias p).2.2
    ∧ (arm_nn_vec_mat_mult_t_s8_scalar lhs rhs bias p).2.2
        = (arm_nn_vec_mat_mult_t_s8_mve lhs rhs bias p).2.2
    ∧ (p.address_offset = 1 →
        (arm_nn_vec_mat_mult_t_s8_scalar lhs rhs bias p).1
          = (arm_nn_vec_mat_mult_t_s8_dsp lhs rhs bias p).1
        ∧ (arm_nn_vec_mat_mult_t_s8_scalar lhs rhs bias p).1
          = (arm_nn_vec_mat_mult_t_s8_mve lhs rhs bias p).1) := by
  have hs := scalar_out lhs rhs bias p
  have hd := dsp_out lhs rhs bias p hl ho1 ho2
  refine ⟨?_, ?_, ?_, ?_⟩
  · intro r hr
    constructor
    · rw [hs, hd]
    · rw [hs,
        runWrites_rowsWrites lhs rhs bias p ha p.rhs_rows 0 r m (by omega) (by omega),
        mve_mem lhs rhs bias p ha m r hr]
  · rw [scalar_status, dsp_status]
  · rw [scalar_status, mve_status]
  · intro h1
    constructor
    · rw [hs, hd]
    · rw [hs, mve_writes_addr_one lhs rhs bias p h1]

/-- Witness for the amended C1 at a concrete valid input (`rhs_cols = 4`,
`rhs_rows = 3`, `lhs_offset = 5`, `address_offset = 2`, no bias). -/
theorem claim_C1_cross_strategy_amended_witness :
    ((-32640 : Int) ≤ 5) ∧ (1 ≤ (4 : Nat)) ∧
    ((∀ r, r < (3 : Nat) →
      runWrites (fun _ => 7) (arm_nn_vec_mat_mult_t_s8_scalar (fun _ => 2) (fun _ => 3)
          none ⟨5, 1, 1, -31, 4, 3, -128, 127, 2⟩).1 (r * 2)
        = runWrites (fun _ => 7) (arm_nn_vec_mat_mult_t_s8_dsp (fun _ => 2) (fun _ => 3)
          none ⟨5, 1, 1, -31, 4, 3, -128, 127, 2⟩).1 (r * 2)
      ∧ runWrites (fun _ => 7) (arm_nn_vec_mat_mult_t_s8_scalar (fun _ => 2) (fun _ => 3)
          none ⟨5, 1, 1, -31, 4, 3, -128, 127, 2⟩).1 (r * 2)
        = runWrites (fun _ => 7) (arm_nn_vec_mat_mult_t_s8_mve (fun _ => 2) (fun _ => 3)
          none ⟨5, 1, 1, -31, 4, 3, -128, 127, 2⟩).1 (r * 2))
    ∧ (arm_nn_vec_mat_mult_t_s8_scalar (fun _ => 2) (fun _ => 3) none
          ⟨5, 1, 1, -31, 4, 3, -128, 127, 2⟩).2.2
        = (arm_nn_vec_mat_mult_t_s8_dsp (fun _ => 2) (fun _ => 3) none
          ⟨5, 1, 1, -31, 4, 3, -128, 127, 2⟩).2.2
    ∧ (arm_nn_vec_mat_mult_t_s8_scalar (fun _ => 2) (fun _ => 3) none
          ⟨5, 1, 1, -31, 4, 3, -128, 127, 2⟩).2.2
        = (arm_nn_vec_mat_mult_t_s8_mve (fun _ => 2) (fun _ => 3) none
          ⟨5, 1, 1, -31, 4, 3, -128, 127, 2⟩).2.2
    ∧ ((2 : Nat) = 1 →
        (arm_nn_vec_mat_mult_t_s8_scalar (fun _ => 2) (fun _ => 3) none
          ⟨5, 1, 1, -31, 4, 3, -128, 127, 2⟩).1
          = (arm_nn_vec_mat_mult_t_s8_dsp (fun _ => 2) (fun _ => 3) none
          ⟨5, 1, 1, -31, 4, 3, -128, 127, 2⟩).1
        ∧ (arm_nn_vec_mat_mult_t_s8_scalar (fun _ => 2) (fun _ => 3) none
          ⟨5, 1, 1, -31, 4, 3, -128, 127, 2⟩).1
          = (arm_nn_vec_mat_mult_t_s8_mve (fun _ => 2) (fun _ => 3) none
          ⟨5, 1, 1, -31, 4, 3, -128, 127, 2⟩).1)) := by
  refine ⟨by decide, by decide, ?_⟩
  exact claim_C1_cross_strategy_amended (fun _ => 2) (fun _ => 3) none
    ⟨5, 1, 1, -31, 4, 3, -128, 127, 2⟩ (fun _ => 7)
    (fun c _ => by norm_num) (by decide) (by decide) (by decide) (by decide)
    (by decide) (by decide) (by decide)

/-- C3: the per-element-offset accumulation `Σ (lhs c + off) * w c` (the scalar
strategy's column loop) equals the sum-then-correct accumulation
`Σ lhs c * w c + off * Σ w c`, and consequently the wide-vector strategy's
predicated chunk accumulator, corrected by `off * rhs_sum`, equals the scalar
strategy's column-loop accumulator for every weight row `w`. -/
theorem claim_C3_offset_correction (lhs w : Nat → Int) (off : Int) (n : Nat)
    (hn : 1 ≤ n) (hl : ∀ c, c < n → -128 ≤ lhs c ∧ lhs c ≤ 127)
    (hw : ∀ c, c < n → -128 ≤ w c ∧ w c ≤ 127) :
    dotOff lhs w off n = dotFrom w lhs 0 n + off * sumFrom w 0 n
    ∧ (mveColsRow lhs w n ((n + 15) / 16)).2
        + off * (mveColsRow lhs w n ((n + 15) / 16)).1
      = scalarCols1 lhs w off n 0 := by
  constructor
  · exact dotOff_split lhs w off n
  · rw [scalarCols1_eq]
    have h := mveRowAcc lhs w off 0 n
    linarith

/-- Witness for C3 at `n = 3`, `lhs ≡ 2`, `w ≡ 3`, `off = 5`. -/
theorem claim_C3_offset_correction_witness :
    (1 ≤ (3 : Nat)) ∧
    (dotOff (fun _ => 2) (fun _ => 3) 5 3
        = dotFrom (fun _ => 3) (fun _ => 2) 0 3 + 5 * sumFrom (fun _ => 3) 0 3
    ∧ (mveColsRow (fun _ => 2) (fun _ => 3) 3 ((3 + 15) / 16)).2
        + 5 * (mveColsRow (fun _ => 2) (fun _ => 3) 3 ((3 + 15) / 16)).1
      = scalarCols1 (fun _ => 2) (fun _ => 3) 5 3 0) := by
  refine ⟨by decide, ?_⟩
  exact claim_C3_offset_correction (fun _ => 2) (fun _ => 3) 5 3 (by decide)
    (fun c _ => by norm_num) (fun c _ => by norm_num)

/-- C4 evaluation at the failing input (`rhs_rows = 3`, `rhs_cols = 1`,
`lhs = [1]`, `rhs = [1,2,3]`, zero offsets, unit scale, bounds `[-128,127]`,
`address_offset = 2`, no bias): the MVE strategy's unpredicated scatter writes
four bytes per 3-row group — the row results at offsets 0, 2, 4 and a spurious
zero-lane byte at offset `6 = 3 * address_offset`, one past the last row slot —
whereas the scalar strategy writes exactly one byte per row. -/
theorem claim_C4_failing_input_eval :
    (arm_nn_vec_mat_mult_t_s8_mve (fun _ => 1) (fun c => [1, 2, 3].getD c 0) none
        ⟨0, 0, 1, -31, 1, 3, -128, 127, 2⟩).1 = [(0, 1), (2, 2), (4, 3), (6, 0)]
    ∧ (arm_nn_vec_mat_mult_t_s8_scalar (fun _ => 1) (fun c => [1, 2, 3].getD c 0) none
        ⟨0, 0, 1, -31, 1, 3, -128, 127, 2⟩).1 = [(0, 1), (2, 2), (4, 3)] := by
  refine ⟨by decide, by decide⟩

theorem rowVal_pre (lhs rhs : Nat → Int) (bias : Option (Nat → Int)) (p : VecMatParams)
    (r : Nat) :
    rowVal lhs rhs bias p r
      = toS8 (min (max (rowPre lhs rhs bias p r) p.activation_min) p.activation_max) :=
  rfl

/-- C5: for every valid input (activation bounds within `[-128,127]`,
`address_offset ≥ 1`, 8-bit `lhs` values, and `lhs_offset` small enough that
the DSP strategy's 16-bit pre-bias additions cannot wrap — implied by the
spec's 9-bit offset invariant) and every row `r`, under each of the three
strategies: if the row's value after requantization and `dst_offset` addition
is below `activation_min` the stored byte equals `activation_min`; if above
`activation_max` it equals `activation_max`; and if exactly at either bound it
is stored unchanged. -/
theorem claim_C5_saturation (lhs rhs : Nat → Int) (bias : Option (Nat → Int))
    (p : VecMatParams) (m0 : Nat → Int) (r : Nat)
    (hact1 : -128 ≤ p.activation_min) (hact2 : p.activation_min ≤ p.activation_max)
    (hact3 : p.activation_max ≤ 127) (ha : 1 ≤ p.address_offset)
    (hr : r < p.rhs_rows)
    (hl : ∀ c, c < p.rhs_cols → -128 ≤ lhs c ∧ lhs c ≤ 127)
    (ho1 : -32640 ≤ p.lhs_offset) (ho2 : p.lhs_offset ≤ 32640) :
    (rowPre lhs rhs bias p r < p.activation_min →
      runWrites m0 (arm_nn_vec_mat_mult_t_s8_scalar lhs rhs bias p).1
          (r * p.address_offset) = p.activation_min
      ∧ runWrites m0 (arm_nn_vec_mat_mult_t_s8_dsp lhs rhs bias p).1
          (r * p.address_offset) = p.activation_min
      ∧ runWrites m0 (arm_nn_vec_mat_mult_t_s8_mve lhs rhs bias p).1
          (r * p.address_offset) = p.activation_min)
    ∧ (p.activation_max < rowPre lhs rhs bias p r →
      runWrites m0 (arm_nn_vec_mat_mult_t_s8_scalar lhs rhs bias p).1
          (r * p.address_offset) = p.activation_max
      ∧ runWrites m0 (arm_nn_vec_mat_mult_t_s8_dsp lhs rhs bias p).1
          (r * p.address_offset) = p.activation_max
      ∧ runWrites m0 (arm_nn_vec_mat_mult_t_s8_mve lhs rhs bias p).1
          (r * p.address_offset) = p.activation_max)
    ∧ (rowPre lhs rhs bias p r = p.activation_min
        ∨ rowPre lhs rhs bias p r = p.activation_max →
      runWrites m0 (arm_nn_vec_mat_mult_t_s8_scalar lhs rhs bias p).1
          (r * p.address_offset) = rowPre lhs rhs bias p r
      ∧ runWrites m0 (arm_nn_vec_mat_mult_t_s8_dsp lhs rhs bias p).1
          (r * p.address_offset) = rowPre lhs rhs bias p r
      ∧ runWrites m0 (arm_nn_vec_mat_mult_t_s8_mve lhs rhs bias p).1
          (r * p.address_offset) = rowPre lhs rhs bias p r) := by
  have hsv : runWrites m0 (arm_nn_vec_mat_mult_t_s8_scalar lhs rhs bias p).1
      (r * p.address_offset)
      = toS8 (min (max (rowPre lhs rhs bias p r) p.activation_min) p.activation_max) := by
    rw [scalar_out,
      runWrites_rowsWrites lhs rhs bias p ha p.rhs_rows 0 r m0 (by omega) (by omega),
      rowVal_pre]
  have hdv : runWrites m0 (arm_nn_vec_mat_mult_t_s8_dsp lhs rhs bias p).1
      (r * p.address_offset)
      = toS8 (min (max (rowPre lhs rhs bias p r) p.activation_min) p.activation_max) := by
    rw [dsp_out lhs rhs bias p hl ho1 ho2,
      runWrites_rowsWrites lhs rhs bias p ha p.rhs_rows 0 r m0 (by omega) (by omega),
      rowVal_pre]
  have hmv : runWrites m0 (arm_nn_vec_mat_mult_t_s8_mve lhs rhs bias p).1
      (r * p.address_offset)
      = toS8 (min (max (rowPre lhs rhs bias p r) p.activation_min) p.activation_max) := by
    rw [mve_mem lhs rhs bias p ha m0 r hr, rowVal_pre]
  refine ⟨?_, ?_, ?_⟩
  · intro h
    have hc : toS8 (min (max (rowPre lhs rhs bias p r) p.activation_min)
        p.activation_max) = p.activation_min := by
      rw [max_eq_right (le_of_lt h), min_eq_left hact2, toS8_eq_self _ hact1 (by omega)]
    exact ⟨hsv.trans hc, hdv.trans hc, hmv.trans hc⟩
  · intro h
    have hc : toS8 (min (max (rowPre lhs rhs bias p r) p.activation_min)
        p.activation_max) = p.activation_max := by
      rw [max_eq_left (le_of_lt (lt_of_le_of_lt hact2 h)), min_eq_right (le_of_lt h),
        toS8_eq_self _ (by omega) hact3]
    exact ⟨hsv.trans hc, hdv.trans hc, hmv.trans hc⟩
  · intro h
    have hc : toS8 (min (max (rowPre lhs rhs bias p r) p.activation_min)
        p.activation_max) = rowPre lhs rhs bias p r := by
      rcases h with h | h
      · rw [h, max_self, min_eq_left hact2, toS8_eq_self _ hact1 (by omega)]
      · rw [h, max_eq_left hact2, min_self, toS8_eq_self _ (by omega) hact3]
    exact ⟨hsv.trans hc, hdv.trans hc, hmv.trans hc⟩

/-- Witness for C5 on the spec's clamped scenario: `lhs = [1,2,3,4]`,
`rhs = [1,1,1,1]`, unit scale, `activation_max = 5`; the pre-clamp value 10
exceeds 5 and all three strategies store 5. -/
theorem claim_C5_saturation_witness :
    ((-128 : Int) ≤ -128) ∧
    ((rowPre (fun c => [1, 2, 3, 4].getD c 0) (fun _ => 1) none
        ⟨0, 0, 1, -31, 4, 1, -128, 5, 1⟩ 0 < -128 →
      runWrites (fun _ => 7) (arm_nn_vec_mat_mult_t_s8_scalar
          (fun c => [1, 2, 3, 4].getD c 0) (fun _ => 1) none
          ⟨0, 0, 1, -31, 4, 1, -128, 5, 1⟩).1 (0 * 1) = -128
      ∧ runWrites (fun _ => 7) (arm_nn_vec_mat_mult_t_s8_dsp
          (fun c => [1, 2, 3, 4].getD c 0) (fun _ => 1) none
          ⟨0, 0, 1, -31, 4, 1, -128, 5, 1⟩).1 (0 * 1) = -128
      ∧ runWrites (fun _ => 7) (arm_nn_vec_mat_mult_t_s8_mve
          (fun c => [1, 2, 3, 4].getD c 0) (fun _ => 1) none
          ⟨0, 0, 1, -31, 4, 1, -128, 5, 1⟩).1 (0 * 1) = -128)
    ∧ (5 < rowPre (fun c => [1, 2, 3, 4].getD c 0) (fun _ => 1) none
        ⟨0, 0, 1, -31, 4, 1, -128, 5, 1⟩ 0 →
      runWrites (fun _ => 7) (arm_nn_vec_mat_mult_t_s8_scalar
          (fun c => [1, 2, 3, 4].getD c 0) (fun _ => 1) none
          ⟨0, 0, 1, -31, 4, 1, -128, 5, 1⟩).1 (0 * 1) = 5
      ∧ runWrites (fun _ => 7) (arm_nn_vec_mat_mult_t_s8_dsp
          (fun c => [1, 2, 3, 4].getD c 0) (fun _ => 1) none
          ⟨0, 0, 1, -31, 4, 1, -128, 5, 1⟩).1 (0 * 1) = 5
      ∧ runWrites (fun _ => 7) (arm_nn_vec_mat_mult_t_s8_mve
          (fun c => [1, 2, 3, 4].getD c 0) (fun _ => 1) none
          ⟨0, 0, 1, -31, 4, 1, -128, 5, 1⟩).1 (0 * 1) = 5)
    ∧ (rowPre (fun c => [1, 2, 3, 4].getD c 0) (fun _ => 1) none
        ⟨0, 0, 1, -31, 4, 1, -128, 5, 1⟩ 0 = -128
        ∨ rowPre (fun c => [1, 2, 3, 4].getD c 0) (fun _ => 1) none
        ⟨0, 0, 1, -31, 4, 1, -128, 5, 1⟩ 0 = 5 →
      runWrites (fun _ => 7) (arm_nn_vec_mat_mult_t_s8_scalar
          (fun c => [1, 2, 3, 4].getD c 0) (fun _ => 1) none
          ⟨0, 0, 1, -31, 4, 1, -128, 5, 1⟩).1 (0 * 1)
        = rowPre (fun c => [1, 2, 3, 4].getD c 0) (fun _ => 1) none
          ⟨0, 0, 1, -31, 4, 1, -128, 5, 1⟩ 0
      ∧ runWrites (fun _ => 7) (arm_nn_vec_mat_mult_t_s8_dsp
          (fun c => [1, 2, 3, 4].getD c 0) (fun _ => 1) none
          ⟨0, 0, 1, -31, 4, 1, -128, 5, 1⟩).1 (0 * 1)
        = rowPre (fun c => [1, 2, 3, 4].getD c 0) (fun _ => 1) none
          ⟨0, 0, 1, -31, 4, 1, -128, 5, 1⟩ 0
      ∧ runWrites (fun _ => 7) (arm_nn_vec_mat_mult_t_s8_mve
          (fun c => [1, 2, 3, 4].getD c 0) (fun _ => 1) none
          ⟨0, 0, 1, -31, 4, 1, -128, 5, 1⟩).1 (0 * 1)
        = rowPre (fun c => [1, 2, 3, 4].getD c 0) (fun _ => 1) none
          ⟨0, 0, 1, -31, 4, 1, -128, 5, 1⟩ 0)) := by
  refine ⟨by decide, ?_⟩
  exact claim_C5_saturation (fun c => [1, 2, 3, 4].getD c 0) (fun _ => 1) none
    ⟨0, 0, 1, -31, 4, 1, -128, 5, 1⟩ (fun _ => 7) 0 (by decide) (by decide) (by decide)
    (by decide) (by decide)
    (fun c hc => by
      have hc4 : c < 4 := hc
      rcases (by omega : c = 0 ∨ c = 1 ∨ c = 2 ∨ c = 3) with h | h | h | h <;>
        subst h <;> decide)
    (by decide) (by decide)

/-- C7: at `rhs_rows = 3`, `rhs_cols = 1`, `lhs = [0]`, `rhs = [10,20,30]`,
`lhs_offset = 5`, `bias = [1,2,3]`, unit scale, `dst_offset = 0`, bounds
`[-128,127]`, `address_offset = 2`, the scalar strategy writes exactly
`dst[0] = 51`, `dst[2] = 102` and `dst[4] = 127` (row sum 153 clamped). -/
theorem claim_C7_scenario :
    (arm_nn_vec_mat_mult_t_s8_scalar (fun _ => 0) (fun c => [10, 20, 30].getD c 0)
        (some fun k => [1, 2, 3].getD k 0) ⟨5, 0, 1, -31, 1, 3, -128, 127, 2⟩).1
      = [(0, 51), (2, 102), (4, 127)]
    ∧ runWrites (fun _ => -1) (arm_nn_vec_mat_mult_t_s8_scalar (fun _ => 0)
        (fun c => [10, 20, 30].getD c 0) (some fun k => [1, 2, 3].getD k 0)
        ⟨5, 0, 1, -31, 1, 3, -128, 127, 2⟩).1 0 = 51
    ∧ runWrites (fun _ => -1) (arm_nn_vec_mat_mult_t_s8_scalar (fun _ => 0)
        (fun c => [10, 20, 30].getD c 0) (some fun k => [1, 2, 3].getD k 0)
        ⟨5, 0, 1, -31, 1, 3, -128, 127, 2⟩).1 2 = 102
    ∧ runWrites (fun _ => -1) (arm_nn_vec_mat_mult_t_s8_scalar (fun _ => 0)
        (fun c => [10, 20, 30].getD c 0) (some fun k => [1, 2, 3].getD k 0)
        ⟨5, 0, 1, -31, 1, 3, -128, 127, 2⟩).1 4 = 127 := by
  refine ⟨by decide, by decide, by decide, by decide⟩

/-- C8: all three strategies return `ARM_CMSIS_NN_SUCCESS` on every input; no
other status is reachable. -/
theorem claim_C8_always_success (lhs rhs : Nat → Int) (bias : Option (Nat → Int))
    (p : VecMatParams) :
    (arm_nn_vec_mat_mult_t_s8_scalar lhs rhs bias p).2.2
        = arm_cmsis_nn_status.ARM_CMSIS_NN_SUCCESS
    ∧ (arm_nn_vec_mat_mult_t_s8_dsp lhs rhs bias p).2.2
        = arm_cmsis_nn_status.ARM_CMSIS_NN_SUCCESS
    ∧ (arm_nn_vec_mat_mult_t_s8_mve lhs rhs bias p).2.2
        = arm_cmsis_nn_status.ARM_CMSIS_NN_SUCCESS :=
  ⟨scalar_status lhs rhs bias p, dsp_status lhs rhs bias p, mve_status lhs rhs bias p⟩

/-- C9: each strategy is a total function (all loops are structural recursions
over counts derived from `rhs_rows` and `rhs_cols`) and performs a number of
`dst` writes determined by the dimensions alone: one per row for the scalar
and DSP strategies, plus one extra scatter byte per full 3-row group for the
MVE strategy when `address_offset > 1`. -/
theorem claim_C9_termination_counts (lhs rhs : Nat → Int) (bias : Option (Nat → Int))
    (p : VecMatParams) :
    (arm_nn_vec_mat_mult_t_s8_scalar lhs rhs bias p).1.length = p.rhs_rows
    ∧ (arm_nn_vec_mat_mult_t_s8_dsp lhs rhs bias p).1.length = p.rhs_rows
    ∧ (arm_nn_vec_mat_mult_t_s8_mve lhs rhs bias p).1.length
        = p.rhs_rows + (if 1 < p.address_offset then p.rhs_rows / 3 else 0) := by
  refine ⟨?_, ?_, ?_⟩
  · rw [scalar_out]
    exact rowsWrites_length lhs rhs bias p p.rhs_rows 0
  · unfold arm_nn_vec_mat_mult_t_s8_dsp
    by_cases h : p.rhs_rows % 2 = 1
    · simp [h, dspGroups_length]
      omega
    · simp [h, dspGroups_length]
      omega
  · rw [mve_out]
    simp only [List.length_append, mveShape_length, rowsWrites_length]
    by_cases h : 1 < p.address_offset <;> simp [h] <;> omega

theorem rowVal_bias_congr (lhs rhs : Nat → Int) (p : VecMatParams)
    (b1 b2 : Option (Nat → Int)) (h : ∀ r, biasAt b1 r = biasAt b2 r) :
    ∀ r, rowVal lhs rhs b1 p r = rowVal lhs rhs b2 p r := by
  intro r
  rw [rowVal, rowVal, h r]

theorem rowsWrites_bias_congr (lhs rhs : Nat → Int) (p : VecMatParams)
    (b1 b2 : Option (Nat → Int)) (h : ∀ r, biasAt b1 r = biasAt b2 r) :
    ∀ t s, rowsWrites lhs rhs b1 p s t = rowsWrites lhs rhs b2 p s t := by
  intro t
  induction t with
  | zero => intro s; rfl
  | succ t ih =>
      intro s
      simp only [rowsWrites, ih (s + 1), rowVal_bias_congr lhs rhs p b1 b2 h s]

theorem mveShape_bias_congr (lhs rhs : Nat → Int) (p : VecMatParams)
    (b1 b2 : Option (Nat → Int)) (h : ∀ r, biasAt b1 r = biasAt b2 r) :
    ∀ g s, mveShape lhs rhs b1 p s g = mveShape lhs rhs b2 p s g := by
  intro g
  induction g with
  | zero => intro s; rfl
  | succ g ih =>
      intro s
      simp only [mveShape, ih (s + 1), rowVal_bias_congr lhs rhs p b1 b2 h (3 * s),
        rowVal_bias_congr lhs rhs p b1 b2 h (3 * s + 1),
        rowVal_bias_congr lhs rhs p b1 b2 h (3 * s + 2)]

theorem dspGroups_none_zero (lhs rhs : Nat → Int) (p : VecMatParams) :
    ∀ g rb k k2 db, (dspGroups lhs rhs none p g rb k db).1
      = (dspGroups lhs rhs (some fun _ => 0) p g rb k2 db).1 := by
  intro g
  induction g with
  | zero => intro rb k k2 db; rfl
  | succ g ih =>
      intro rb k k2 db
      simp only [dspGroups, biasAt, biasAdv]
      rw [ih (rb + 2 * p.rhs_cols) k (k2 + 2) (db + 2 * p.address_offset)]

theorem dspGroups_cursor_none (lhs rhs : Nat → Int) (p : VecMatParams) :
    ∀ g rb k db, (dspGroups lhs rhs none p g rb k db).2 = k := by
  intro g
  induction g with
  | zero => intro rb k db; rfl
  | succ g ih =>
      intro rb k db
      simp only [dspGroups, biasAdv]
      exact ih (rb + 2 * p.rhs_cols) k (db + 2 * p.address_offset)

/-- C6: for every input, calling any of the three strategies without a bias
vector produces the same write trace and status as calling it with an all-zero
bias vector. -/
theorem claim_C6_bias_absence (lhs rhs : Nat → Int) (p : VecMatParams) :
    ((arm_nn_vec_mat_mult_t_s8_scalar lhs rhs none p).1
        = (arm_nn_vec_mat_mult_t_s8_scalar lhs rhs (some fun _ => 0) p).1
      ∧ (arm_nn_vec_mat_mult_t_s8_scalar lhs rhs none p).2.2
        = (arm_nn_vec_mat_mult_t_s8_scalar lhs rhs (some fun _ => 0) p).2.2)
    ∧ ((arm_nn_vec_mat_mult_t_s8_dsp lhs rhs none p).1
        = (arm_nn_vec_mat_mult_t_s8_dsp lhs rhs (some fun _ => 0) p).1
      ∧ (arm_nn_vec_mat_mult_t_s8_dsp lhs rhs none p).2.2
        = (arm_nn_vec_mat_mult_t_s8_dsp lhs rhs (some fun _ => 0) p).2.2)
    ∧ ((arm_nn_vec_mat_mult_t_s8_mve lhs rhs none p).1
        = (arm_nn_vec_mat_mult_t_s8_mve lhs rhs (some fun _ => 0) p).1
      ∧ (arm_nn_vec_mat_mult_t_s8_mve lhs rhs none p).2.2
        = (arm_nn_vec_mat_mult_t_s8_mve lhs rhs (some fun _ => 0) p).2.2) := by
  have hb : ∀ r, biasAt (none : Option (Nat → Int)) r
      = biasAt (some fun _ => (0 : Int)) r := fun r => rfl
  refine ⟨⟨?_, ?_⟩, ⟨?_, ?_⟩, ⟨?_, ?_⟩⟩
  · rw [scalar_out, scalar_out]
    exact rowsWrites_bias_congr lhs rhs p none (some fun _ => 0) hb p.rhs_rows 0
  · rw [scalar_status, scalar_status]
  · unfold arm_nn_vec_mat_mult_t_s8_dsp
    by_cases h : p.rhs_rows % 2 = 1
    · simp only [h, if_pos rfl, biasAt]
      rw [dspGroups_none_zero lhs rhs p (p.rhs_rows / 2) 0 0 0 0]
      simp only [if_true]
    · simp only [h]
      rw [if_neg (by simpa using h), if_neg (by simpa using h)]
      exact dspGroups_none_zero lhs rhs p (p.rhs_rows / 2) 0 0 0 0
  · rw [dsp_status, dsp_status]
  · rw [mve_out, mve_out]
    rw [mveShape_bias_congr lhs rhs p none (some fun _ => 0) hb (p.rhs_rows / 3) 0,
      rowsWrites_bias_congr lhs rhs p none (some fun _ => 0) hb (p.rhs_rows % 3)
        (3 * (p.rhs_rows / 3))]
  · rw [mve_status, mve_status]

/-- C10: when bias is absent, no strategy ever advances the bias cursor (no
read happens through the bias pointer on any path), and every per-row
accumulator starts at zero: the reference row value reduces to the formula
with a zero bias term. -/
theorem claim_C10_bias_null_no_read (lhs rhs : Nat → Int) (p : VecMatParams) :
    (arm_nn_vec_mat_mult_t_s8_scalar lhs rhs none p).2.1 = 0
    ∧ (arm_nn_vec_mat_mult_t_s8_dsp lhs rhs none p).2.1 = 0
    ∧ (arm_nn_vec_mat_mult_t_s8_mve lhs rhs none p).2.1 = 0
    ∧ (∀ r, rowVal lhs rhs none p r
        = requantClamp p (0 + rowAcc lhs rhs p.lhs_offset p.rhs_cols r))
    ∧ (arm_nn_vec_mat_mult_t_s8_scalar lhs rhs none p).1
        = rowsWrites lhs rhs none p 0 p.rhs_rows := by
  refine ⟨?_, ?_, ?_, fun r => rfl, ?_⟩
  · rw [scalar_out]
    rfl
  · unfold arm_nn_vec_mat_mult_t_s8_dsp
    by_cases h : p.rhs_rows % 2 = 1
    · simp only [h, if_pos rfl, biasAdv]
      exact dspGroups_cursor_none lhs rhs p (p.rhs_rows / 2) 0 0 0
    · simp only [h]
      rw [if_neg (by simpa using h)]
      exact dspGroups_cursor_none lhs rhs p (p.rhs_rows / 2) 0 0 0
  · rw [mve_out]
    rfl
  · rw [scalar_out]
